import Mathlib

/-!
A verification development for the scan-receipts application.

The definitions below are a shallow embedding of the program:
- the Gemini extraction client (processReceipt and its defaulting logic),
- the ReceiptEdit form (initial form state and handleSubmit),
- the App component (persistence to the localStorage slot, saveReceipt,
  simulateSync, handleCapture),
- the runtime pieces those functions lean on: a JSON codec modelling
  JSON.parse / JSON.stringify, JavaScript truthiness and the or-else
  operator, parseFloat, String.prototype.split at a comma, and the
  calendar arithmetic behind new Date().toISOString().split(given T)[0].

JavaScript machine numbers are modelled as exact rationals extended with
NaN and the two infinities; no arithmetic beyond what the program performs
is modelled, so no rounding questions arise.
-/

/-! ## JSON values

The value space of JSON.parse: null, booleans, numbers, strings, arrays
and objects.  Numbers are exact rationals (every JSON numeral denotes a
decimal fraction, which the rationals embed).  Object fields keep their
textual order; lookup takes the last binding of a repeated key, as the
JavaScript runtime does.
-/

inductive Json where
  | null
  | bool (b : Bool)
  | num (q : ℚ)
  | str (s : String)
  | arr (elements : List Json)
  | obj (fields : List (String × Json))
deriving Inhabited

mutual

/-- Structural equality test on values (the nested lists rule out a derived
instance, so it is spelled out as a mutual recursion). -/
def Json.beq : Json → Json → Bool
  | .null, .null => true
  | .bool a, .bool b => a == b
  | .num a, .num b => decide (a = b)
  | .str a, .str b => decide (a = b)
  | .arr a, .arr b => Json.beqElems a b
  | .obj a, .obj b => Json.beqFields a b
  | _, _ => false

/-- Pointwise Json.beq on element lists. -/
def Json.beqElems : List Json → List Json → Bool
  | [], [] => true
  | v :: vs, w :: ws => Json.beq v w && Json.beqElems vs ws
  | _, _ => false

/-- Pointwise Json.beq on field lists, keys compared as strings. -/
def Json.beqFields : List (String × Json) → List (String × Json) → Bool
  | [], [] => true
  | (k, v) :: fs, (l, w) :: gs => decide (k = l) && Json.beq v w && Json.beqFields fs gs
  | _, _ => false

end

mutual

/-- The equality test answers true exactly on equal values. -/
theorem Json.beq_iff : ∀ a b : Json, Json.beq a b = true ↔ a = b
  | .null, .null => by simp [Json.beq]
  | .bool _, .bool _ => by simp [Json.beq]
  | .num _, .num _ => by simp [Json.beq]
  | .str _, .str _ => by simp [Json.beq]
  | .arr a, .arr b => by simp [Json.beq, Json.beqElems_iff a b]
  | .obj a, .obj b => by simp [Json.beq, Json.beqFields_iff a b]
  | .null, .bool _ | .null, .num _ | .null, .str _ | .null, .arr _ | .null, .obj _
  | .bool _, .null | .bool _, .num _ | .bool _, .str _ | .bool _, .arr _ | .bool _, .obj _
  | .num _, .null | .num _, .bool _ | .num _, .str _ | .num _, .arr _ | .num _, .obj _
  | .str _, .null | .str _, .bool _ | .str _, .num _ | .str _, .arr _ | .str _, .obj _
  | .arr _, .null | .arr _, .bool _ | .arr _, .num _ | .arr _, .str _ | .arr _, .obj _
  | .obj _, .null | .obj _, .bool _ | .obj _, .num _ | .obj _, .str _ | .obj _, .arr _ =>
    by simp [Json.beq]

/-- The element-list test answers true exactly on equal lists. -/
theorem Json.beqElems_iff : ∀ a b : List Json, Json.beqElems a b = true ↔ a = b
  | [], [] => by simp [Json.beqElems]
  | v :: vs, w :: ws => by
    simp [Json.beqElems, Json.beq_iff v w, Json.beqElems_iff vs ws]
  | [], _ :: _ => by simp [Json.beqElems]
  | _ :: _, [] => by simp [Json.beqElems]

/-- The field-list test answers true exactly on equal lists. -/
theorem Json.beqFields_iff : ∀ a b : List (String × Json), Json.beqFields a b = true ↔ a = b
  | [], [] => by simp [Json.beqFields]
  | (k, v) :: fs, (l, w) :: gs => by
    simp [Json.beqFields, Json.beq_iff v w, Json.beqFields_iff fs gs, and_assoc]
  | [], _ :: _ => by simp [Json.beqFields]
  | _ :: _, [] => by simp [Json.beqFields]

end

instance : DecidableEq Json := fun a b => decidable_of_iff (Json.beq a b = true) (Json.beq_iff a b)

/-! ## JavaScript value semantics used by the program -/

/-- Truthiness of a JSON value under JavaScript coercion: null, false, the
number 0 and the empty string are falsy; every other value, including empty
arrays and objects, is truthy. -/
def jsTruthy : Json → Bool
  | .null => false
  | .bool b => b
  | .num q => decide (q ≠ 0)
  | .str s => decide (s ≠ "")
  | .arr _ => true
  | .obj _ => true

/-- The expression a || d for a possibly-undefined JavaScript value a:
the value when present and truthy, the default otherwise. -/
def jsOr (a : Option Json) (d : Json) : Json :=
  match a with
  | some v => if jsTruthy v then v else d
  | none => d

/-- The expression a || d for a possibly-undefined string: the string when
present and nonempty, the default otherwise. -/
def jsOrString (a : Option String) (d : String) : String :=
  match a with
  | some s => if s = "" then d else s
  | none => d

/-- Property access v.k on a parsed JSON value: defined bindings of objects,
undefined everywhere else (the null case, which would throw in JavaScript,
is handled at each use site). Last binding of a repeated key wins. -/
def jsGet (v : Json) (k : String) : Option Json :=
  match v with
  | .obj fields => fields.foldl (fun acc kv => if kv.1 = k then some kv.2 else acc) none
  | _ => none

/-- A JavaScript machine number: an exact rational, NaN, or an infinity. -/
inductive JsNum where
  | num (q : ℚ)
  | nan
  | inf
  | negInf
deriving DecidableEq, Inhabited

/-- Truthiness of a machine number: NaN and 0 are falsy. -/
def JsNum.truthy : JsNum → Bool
  | .num q => decide (q ≠ 0)
  | .nan => false
  | .inf => true
  | .negInf => true

/-- The expression n || 0 on a machine number: NaN and 0 collapse to 0,
everything else passes through. -/
def JsNum.orZero (n : JsNum) : JsNum :=
  if n.truthy then n else .num 0

/-! ## Decimal digit strings -/

/-- The character of a decimal digit. -/
def digitChar (d : Nat) : Char := Char.ofNat (48 + d)

/-- Decimal digit characters of n, most significant first, in front of acc.
Structural on the fuel so that the kernel can evaluate it; the wrapper
passes n + 1, which bounds the number of digits. -/
def natDecCharsAux : Nat → Nat → List Char → List Char
  | 0, _, acc => acc
  | _, 0, acc => acc
  | f + 1, n, acc => natDecCharsAux f (n / 10) (digitChar (n % 10) :: acc)

/-- Decimal digit characters of n, most significant first; "0" for zero. -/
def natDecChars (n : Nat) : List Char :=
  if n = 0 then ['0'] else natDecCharsAux (n + 1) n []

/-- Value of a run of decimal digit characters, most significant first. -/
def digitsFold (ds : List Char) : Nat :=
  ds.foldl (fun acc c => acc * 10 + (c.toNat - 48)) 0

/-- Decimal rendering of a natural number, matching Number.prototype.toString. -/
def natDecString (n : Nat) : String := ⟨natDecChars n⟩

/-- Left-pad a digit run with zeros to the width w. -/
def padZeros (w : Nat) (ds : List Char) : List Char :=
  List.replicate (w - ds.length) '0' ++ ds

/-! ## JSON.stringify

A model of the serializer the program uses for persistence.  Strings are
escaped the way JSON.stringify escapes them: quote and backslash, the five
named control escapes, and a four-digit hexadecimal escape for the other
control characters.  Numbers are printed in plain decimal (sign, integer
part, optional fractional part); every machine number the program can
store is such a decimal fraction, and for those the printer is exact.
-/

/-- Largest e with p ^ e dividing n, for 2 <= p and 0 < n; structural on
fuel, with n itself as sufficient fuel in the wrapper. -/
def maxPowAux : Nat → Nat → Nat → Nat
  | 0, _, _ => 0
  | f + 1, p, n => if 2 ≤ p ∧ 0 < n ∧ n % p = 0 then maxPowAux f p (n / p) + 1 else 0

/-- Largest e with p ^ e dividing n (0 for degenerate arguments). -/
def maxPow (p n : Nat) : Nat := maxPowAux n p n

/-- Whether a rational is a decimal fraction, that is, has a denominator of
the form 2 ^ a * 5 ^ b.  Exactly the finite values of a binary machine
number have this shape, so every number reaching the store satisfies it. -/
def decTenRep (q : ℚ) : Bool := 2 ^ maxPow 2 q.den * 5 ^ maxPow 5 q.den = q.den

/-- Digit characters of the decimal expansion m / 10 ^ k with an optional
leading minus sign: the digits of m with a point inserted k places from
the right (k = 0 prints no point, as toString does for integers). -/
def renderDecimal (neg : Bool) (m k : Nat) : List Char :=
  let sign := if neg then ['-'] else []
  if k = 0 then sign ++ natDecChars m
  else
    let ds := padZeros (k + 1) (natDecChars m)
    sign ++ ((ds.take (ds.length - k)) ++ ('.' :: ds.drop (ds.length - k)))

/-- Decimal rendering of a rational, exact on decimal fractions: the
denominator is cleared into 10 ^ k with k as small as possible and the
scaled numerator is printed with the point k places in.  This is the
JSON.stringify (and Number.prototype.toString) spelling of every finite
machine number: 12.5 prints as "12.5", integers print with no point. -/
def numToString (q : ℚ) : String :=
  if q = 0 then "0"
  else
    let d := q.den
    let k := max (maxPow 2 d) (maxPow 5 d)
    let m := q.num.natAbs * (10 ^ k / d)
    ⟨renderDecimal (decide (q.num < 0)) m k⟩

/-- Hexadecimal digit character, lowercase. -/
def hexDigitChar (d : Nat) : Char :=
  if d < 10 then Char.ofNat (48 + d) else Char.ofNat (87 + d)

/-- JSON.stringify escaping of one character: quote and backslash get a
backslash, the five named control characters their short escapes, the
remaining control characters a \u00XX escape, everything else stands. -/
def escSeq (c : Char) : List Char := ['\\', c]

def escapeChar (ch : Char) : List Char :=
  match ch with
  | '"' => escSeq '"'
  | '\\' => escSeq '\\'
  | '\x08' => escSeq 'b'
  | '\t' => escSeq 't'
  | '\n' => escSeq 'n'
  | '\x0c' => escSeq 'f'
  | '\r' => escSeq 'r'
  | ch =>
    if ch.toNat < 32 then
      escSeq 'u' ++ ['0', '0', hexDigitChar (ch.toNat / 16), hexDigitChar (ch.toNat % 16)]
    else [ch]

/-- A string literal as JSON.stringify prints it: quoted, body escaped. -/
def renderStr (s : String) : List Char :=
  '"' :: ((s.data.map escapeChar).flatten ++ ['"'])

mutual

/-- Characters of the JSON.stringify serialization of a value. -/
def stringifyVal : Json → List Char
  | .null => ['n', 'u', 'l', 'l']
  | .num q => (numToString q).data
  | .bool true => ['t', 'r', 'u', 'e']
  | .str s => renderStr s
  | .bool false => ['f', 'a', 'l', 's', 'e']
  | .arr es => '[' :: (stringifyElems es ++ [']'])
  | .obj fs => '\x7b' :: (stringifyFields fs ++ ['\x7d'])

/-- Comma-separated serializations of array elements. -/
def stringifyElems : List Json → List Char
  | [] => []
  | v :: vs => stringifyVal v ++ stringifyElemsTail vs

/-- Continuation of an element list: a comma before every further element. -/
def stringifyElemsTail : List Json → List Char
  | [] => []
  | v :: vs => ',' :: (stringifyVal v ++ stringifyElemsTail vs)

/-- Comma-separated key : value serializations of object fields. -/
def stringifyFields : List (String × Json) → List Char
  | [] => []
  | (k, v) :: fs => renderStr k ++ (':' :: (stringifyVal v ++ stringifyFieldsTail fs))

/-- Continuation of a field list: a comma before every further field. -/
def stringifyFieldsTail : List (String × Json) → List Char
  | [] => []
  | (k, v) :: fs => ',' :: (renderStr k ++ (':' :: (stringifyVal v ++ stringifyFieldsTail fs)))

end

/-- The JSON.stringify model on whole values. -/
def jsonStringify (j : Json) : String := ⟨stringifyVal j⟩

mutual

/-- Every numeral of the value is a decimal fraction (true of every value
built from machine numbers, which is all the program ever serializes). -/
def jsonDecRep : Json → Bool
  | .num q => decTenRep q
  | .arr es => jsonDecRepList es
  | .obj fs => jsonDecRepFields fs
  | _ => true

/-- jsonDecRep over an element list. -/
def jsonDecRepList : List Json → Bool
  | [] => true
  | v :: vs => jsonDecRep v && jsonDecRepList vs

/-- jsonDecRep over a field list. -/
def jsonDecRepFields : List (String × Json) → Bool
  | [] => true
  | (_, v) :: fs => jsonDecRep v && jsonDecRepFields fs

end

/-! ## JSON.parse

A model of the parser the program applies to the persisted slot and to the
model response.  It is total by structural recursion on a fuel argument;
the entry point passes the input length plus one, which the round-trip
proof shows is always enough for serializer output.  The grammar follows
RFC 8259: the four whitespace characters, the three literals, decimal
numerals with optional fraction and exponent, escaped strings (raw control
characters rejected), arrays and objects.
-/

/-- JSON whitespace. -/
def isWsChar (c : Char) : Bool := c = ' ' || c = '\t' || c = '\n' || c = '\r'

/-- Drop leading JSON whitespace. -/
def skipWs : List Char → List Char
  | [] => []
  | c :: cs => if isWsChar c then skipWs cs else c :: cs

/-- Decimal digit test. -/
def isDigitChar (c : Char) : Bool := 48 ≤ c.toNat && c.toNat ≤ 57

/-- Split off the longest leading run of decimal digits. -/
def takeDigits : List Char → List Char × List Char
  | [] => ([], [])
  | c :: cs =>
    if isDigitChar c then
      let (ds, r) := takeDigits cs
      (c :: ds, r)
    else ([], c :: cs)

/-- Value of a hexadecimal digit character, either case. -/
def hexVal (c : Char) : Option Nat :=
  if 48 ≤ c.toNat && c.toNat ≤ 57 then some (c.toNat - 48)
  else if 97 ≤ c.toNat && c.toNat ≤ 102 then some (c.toNat - 87)
  else if 65 ≤ c.toNat && c.toNat ≤ 70 then some (c.toNat - 55)
  else none

/-- The character a single-letter escape stands for. -/
def unescapeChar : Char → Option Char
  | '"' => some '"'
  | '\\' => some '\\'
  | '/' => some '/'
  | 'b' => some '\x08'
  | 'f' => some '\x0c'
  | 'n' => some '\n'
  | 'r' => some '\r'
  | 't' => some '\t'
  | _ => none

/-- Parse a string body after the opening quote, up to and including the
closing quote: escapes are decoded, raw control characters are rejected,
and the remainder after the closing quote is returned. -/
def parseStrBody : List Char → Option (List Char × List Char)
  | [] => none
  | '"' :: rest => some ([], rest)
  | '\\' :: 'u' :: a :: b :: c :: d :: rest =>
    (match hexVal a, hexVal b, hexVal c, hexVal d with
     | some va, some vb, some vc, some vd =>
       match parseStrBody rest with
       | some (body, r) =>
         some (Char.ofNat (((va * 16 + vb) * 16 + vc) * 16 + vd) :: body, r)
       | none => none
     | _, _, _, _ => none)
  | '\\' :: e :: rest =>
    (match unescapeChar e with
     | some ch =>
       match parseStrBody rest with
       | some (body, r) => some (ch :: body, r)
       | none => none
     | none => none)
  | c :: rest =>
    if c.toNat < 32 then none
    else
      match parseStrBody rest with
      | some (body, r) => some (c :: body, r)
      | none => none

/-- Parse an optional fraction part: a point must be followed by at least
one digit; no point parses as the empty digit run. -/
def parseFrac : List Char → Option (List Char × List Char)
  | '.' :: r =>
    let (ds, r2) := takeDigits r
    if ds.isEmpty then none else some (ds, r2)
  | cs => some ([], cs)

/-- Parse the sign and digits after an exponent marker. -/
def parseExpTail (cs : List Char) : Option (Int × List Char) :=
  let (sgn, r1) : Int × List Char :=
    match cs with
    | '+' :: r => (1, r)
    | '-' :: r => (-1, r)
    | _ => (1, cs)
  let (ds, r2) := takeDigits r1
  if ds.isEmpty then none else some (sgn * (digitsFold ds : Int), r2)

/-- Parse an optional exponent part. -/
def parseExp : List Char → Option (Int × List Char)
  | 'e' :: r => parseExpTail r
  | 'E' :: r => parseExpTail r
  | cs => some (0, cs)

/-- Read a leading minus sign. -/
def splitSign (cs : List Char) : Bool × List Char :=
  match cs with
  | '-' :: r => (true, r)
  | _ => (false, cs)

/-- Parse a JSON numeral into the exact rational it denotes. -/
def parseNumber (cs : List Char) : Option (ℚ × List Char) :=
  let (neg, cs1) := splitSign cs
  let (intDs, cs2) := takeDigits cs1
  if intDs.isEmpty then none
  else
    match parseFrac cs2 with
    | none => none
    | some (fracDs, cs3) =>
      match parseExp cs3 with
      | none => none
      | some (e, cs4) =>
        let ex : Int := e - (fracDs.length : Int)
        let mant : Int := (digitsFold (intDs ++ fracDs) : Int)
        let mag : ℚ :=
          if 0 ≤ ex then Rat.divInt (mant * Int.pow 10 ex.toNat) 1
          else Rat.divInt mant (Int.pow 10 (-ex).toNat)
        some (if neg then -mag else mag, cs4)

mutual

/-- Parse one JSON value.  The input is expected with leading whitespace
already dropped; whitespace interior to arrays and objects is handled at
each punctuation step. -/
def parseVal : Nat → List Char → Option (Json × List Char)
  | 0, _ => none
  | fuel + 1, cs =>
    match cs with
    | 'n' :: 'u' :: 'l' :: 'l' :: r => some (.null, r)
    | 't' :: 'r' :: 'u' :: 'e' :: r => some (.bool true, r)
    | 'f' :: 'a' :: 'l' :: 's' :: 'e' :: r => some (.bool false, r)
    | '"' :: r =>
      (match parseStrBody r with
       | some (body, r2) => some (.str ⟨body⟩, r2)
       | none => none)
    | '[' :: r =>
      (match skipWs r with
       | ']' :: r2 => some (.arr [], r2)
       | r1 =>
         match parseVal fuel r1 with
         | some (v, r2) =>
           (match parseArrTail fuel r2 with
            | some (vs, r3) => some (.arr (v :: vs), r3)
            | none => none)
         | none => none)
    | '\x7b' :: r =>
      (match skipWs r with
       | '\x7d' :: r2 => some (.obj [], r2)
       | '"' :: r2 =>
         (match parseStrBody r2 with
          | some (key, r3) =>
            (match skipWs r3 with
             | ':' :: r4 =>
               (match parseVal fuel (skipWs r4) with
                | some (v, r5) =>
                  (match parseObjTail fuel r5 with
                   | some (fs, r6) => some (.obj ((⟨key⟩, v) :: fs), r6)
                   | none => none)
                | none => none)
             | _ => none)
          | none => none)
       | _ => none)
    | c :: r =>
      if c = '-' || isDigitChar c then
        match parseNumber (c :: r) with
        | some (q, r2) => some (.num q, r2)
        | none => none
      else none
    | [] => none

/-- Parse the rest of an array after one element: any number of
comma-prefixed further elements, then the closing bracket. -/
def parseArrTail : Nat → List Char → Option (List Json × List Char)
  | 0, _ => none
  | fuel + 1, cs =>
    match skipWs cs with
    | ']' :: r => some ([], r)
    | ',' :: r =>
      (match parseVal fuel (skipWs r) with
       | some (v, r2) =>
         (match parseArrTail fuel r2 with
          | some (vs, r3) => some (v :: vs, r3)
          | none => none)
       | none => none)
    | _ => none

/-- Parse the rest of an object after one field: any number of
comma-prefixed further fields, then the closing brace. -/
def parseObjTail : Nat → List Char → Option (List (String × Json) × List Char)
  | 0, _ => none
  | fuel + 1, cs =>
    match skipWs cs with
    | '\x7d' :: r => some ([], r)
    | ',' :: r =>
      (match skipWs r with
       | '"' :: r2 =>
         (match parseStrBody r2 with
          | some (key, r3) =>
            (match skipWs r3 with
             | ':' :: r4 =>
               (match parseVal fuel (skipWs r4) with
                | some (v, r5) =>
                  (match parseObjTail fuel r5 with
                   | some (fs, r6) => some ((⟨key⟩, v) :: fs, r6)
                   | none => none)
                | none => none)
             | _ => none)
          | none => none)
       | _ => none)
    | _ => none

end

/-- The JSON.parse model on whole strings: one value, whitespace allowed
around it, nothing further; anything else is a parse error (none), which
at the call sites of the program surfaces as a thrown exception. -/
def jsonParse (s : String) : Option Json :=
  match parseVal (s.data.length + 1) (skipWs s.data) with
  | some (j, rest) => if skipWs rest = [] then some j else none
  | none => none

/-! ## parseFloat

The Number.parseFloat coercion the edit form applies to the total field:
leading whitespace is skipped, an optional sign read, then the longest
prefix shaped sign-digits-point-digits-exponent is converted; the literal
Infinity is honoured; if no digit is found the result is NaN.  A trailing
point with no fraction digits is part of the literal (so "12.x" converts
to 12), and an exponent marker without digits is ignored (so "12e"
converts to 12), both as in ECMA-262.
-/

/-- The whitespace parseFloat skips (the common ASCII set and no-break
space; the exotic Unicode space classes are not modelled). -/
def jsWsChar (c : Char) : Bool :=
  c = ' ' || c = '\t' || c = '\n' || c = '\x0b' || c = '\x0c' || c = '\r' || c = '\xa0'

/-- Value of an exponent continuation: optional sign then digits; an empty
digit run means the marker is not part of the literal, contributing 0. -/
def expPrefixVal (cs : List Char) : Int :=
  let (sgn, r1) : Int × List Char :=
    match cs with
    | '+' :: r => (1, r)
    | '-' :: r => (-1, r)
    | _ => (1, cs)
  let (ds, _) := takeDigits r1
  if ds.isEmpty then 0 else sgn * (digitsFold ds : Int)

/-- Magnitude of the longest floating literal prefix, sign already read. -/
def parseFloatMag (neg : Bool) (cs : List Char) : JsNum :=
  match cs with
  | 'I' :: 'n' :: 'f' :: 'i' :: 'n' :: 'i' :: 't' :: 'y' :: _ =>
    if neg then .negInf else .inf
  | _ =>
    let (intDs, r1) := takeDigits cs
    let (fracDs, r2) :=
      match r1 with
      | '.' :: r => takeDigits r
      | _ => ([], r1)
    if intDs.isEmpty && fracDs.isEmpty then .nan
    else
      let e : Int :=
        match r2 with
        | 'e' :: r => expPrefixVal r
        | 'E' :: r => expPrefixVal r
        | _ => 0
      let ex : Int := e - (fracDs.length : Int)
      let mant : Int := (digitsFold (intDs ++ fracDs) : Int)
      let mag : ℚ :=
        if 0 ≤ ex then Rat.divInt (mant * Int.pow 10 ex.toNat) 1
        else Rat.divInt mant (Int.pow 10 (-ex).toNat)
      .num (if neg then -mag else mag)

/-- The parseFloat model on whole strings. -/
def parseFloatJs (s : String) : JsNum :=
  match s.data.dropWhile jsWsChar with
  | '+' :: r => parseFloatMag false r
  | '-' :: r => parseFloatMag true r
  | r => parseFloatMag false r

/-! ## String.prototype.split at a comma

The extraction client sends base64Image.split(given comma)[1] ||
base64Image as the image payload: the text between the first and second
comma when the input has a comma and that segment is nonempty, the whole
input otherwise.
-/

/-- The segments of String.prototype.split at a comma: every comma cuts,
empty segments are kept, the empty input gives one empty segment. -/
def splitComma : List Char → List (List Char)
  | [] => [[]]
  | c :: rest =>
    if c = ',' then [] :: splitComma rest
    else
      match splitComma rest with
      | [] => [[c]]
      | p :: ps => (c :: p) :: ps

/-- The data field of the inlineData request part built by processReceipt:
the expression base64Image.split(given comma)[1] || base64Image. -/
def sentImageData (base64Image : String) : String :=
  jsOrString (((splitComma base64Image.data).map fun p => (⟨p⟩ : String))[1]?) base64Image

/-! ## Calendar days

The default date is new Date().toISOString().split(given T)[0]: the
calendar day of the current instant in UTC, rendered YYYY-MM-DD.  The
model takes the clock as milliseconds since the Unix epoch and converts
with the standard civil-from-days algorithm.
-/

/-- Gregorian date of a day number counted from 1970-01-01 (the classic
era-based conversion): year, month, day of month. -/
def civilFromDays (z0 : Int) : Int × Nat × Nat :=
  let z := z0 + 719468
  let era : Int := z.fdiv 146097
  let doe : Nat := (z - era * 146097).toNat
  let yoe : Nat := (doe - doe / 1460 + doe / 36524 - doe / 146096) / 365
  let y : Int := (yoe : Int) + era * 400
  let doy : Nat := doe - (365 * yoe + yoe / 4 - yoe / 100)
  let mp : Nat := (5 * doy + 2) / 153
  let d : Nat := doy - (153 * mp + 2) / 5 + 1
  let m : Nat := if mp < 10 then mp + 3 else mp - 9
  (if m ≤ 2 then y + 1 else y, m, d)

/-- Zero-padded decimal rendering. -/
def padNat (w n : Nat) : String := ⟨padZeros w (natDecChars n)⟩

/-- A YYYY-MM-DD date string (years of the first ten thousand; the
expanded spelling of other years is never reached by the claims). -/
def isoDateString (y : Int) (m d : Nat) : String :=
  (if y < 0 then "-" ++ padNat 4 y.natAbs else padNat 4 y.toNat) ++ "-" ++
    padNat 2 m ++ "-" ++ padNat 2 d

/-- The calendar day in UTC of an instant, as the program computes it:
new Date(nowMs).toISOString().split(given T)[0]. -/
def isoUtcDay (nowMs : Int) : String :=
  let c := civilFromDays (nowMs.fdiv 86400000)
  isoDateString c.1 c.2.1 c.2.2

/-- The specification's reading of the default date: the ISO calendar day
of the instant in the caller's local zone, the zone given as the offset
from UTC in minutes, east positive.  Stated from the specification text
for comparison with what the program computes. -/
def specLocalIsoDay (nowMs offsetMinutes : Int) : String :=
  isoUtcDay (nowMs + offsetMinutes * 60000)

/-! ## The extraction client

processReceipt from the Gemini service module: the response text (or an
empty object when the text is absent or empty) is parsed as JSON and the
five fields are read off with or-else defaults.  A transport failure, a
parse failure, or a null parse result (whose property reads would throw)
is caught by the try block and rethrown, rejecting the returned promise.
-/

/-- The part of the model response the client reads. -/
structure GenResponse where
  text : Option String
deriving DecidableEq

/-- The output shape of the extraction client: all five fields present. -/
structure ExtractedFields where
  date : Json
  merchant : Json
  total : Json
  category : Json
  paymentSource : Json
deriving DecidableEq

/-- The field defaulting of processReceipt on the five properties read
from the parsed result object. -/
def defaultFields (todayString : String) (d m t c p : Option Json) : ExtractedFields :=
  { date := jsOr d (.str todayString)
    merchant := jsOr m (.str "Unknown Merchant")
    total := jsOr t (.num 0)
    category := jsOr c (.str "Other")
    paymentSource := jsOr p (.str "Unknown") }

/-- The record literal processReceipt returns, built from the parsed
result object. -/
def buildExtracted (todayString : String) (result : Json) : ExtractedFields :=
  defaultFields todayString (jsGet result "date") (jsGet result "merchant")
    (jsGet result "total") (jsGet result "category") (jsGet result "paymentSource")

/-- The extraction client.  The clock parameter is the instant at which
the response is handled (it feeds the date default); the call parameter
is the settled outcome of the model request. -/
def processReceipt (nowMs : Int) (call : Except Unit GenResponse) : Except Unit ExtractedFields :=
  match call with
  | .error e => .error e
  | .ok resp =>
    match jsonParse (jsOrString resp.text "\x7b\x7d") with
    | none => .error ()
    | some .null => .error ()
    | some result => .ok (buildExtracted (isoUtcDay nowMs) result)

/-! ## The edit form

ReceiptEdit seeds its form state from the draft with or-else defaults
(today, the empty merchant, the stringified total, Category.OTHER, and
the label Credit Card for the payment source) and on submission bundles a
full record: the form fields, the draft id or a fresh one, the parsed
total with NaN collapsed to 0, status pending, and the draft image.
-/

/-- The conversion applied by toString inside total?.toString(): numbers
print in decimal, strings stand, arrays join their members with commas
(null members print empty), objects print the object tag.  Fuel-indexed so
the kernel can run it; any fuel at least the nesting depth agrees. -/
def jsToStringF (f : Nat) : Json → String
  | .null => "null"
  | .bool true => "true"
  | .bool false => "false"
  | .num q => numToString q
  | .str s => s
  | .arr l =>
    (match f with
     | 0 => ""
     | f + 1 =>
       String.intercalate "," (l.map fun v =>
         match v with
         | .null => ""
         | w => jsToStringF f w))
  | .obj _ => "[object Object]"

mutual

/-- Nesting depth of a value: zero on scalars, one more than the deepest
member on arrays and objects. -/
def Json.depthV : Json → Nat
  | .null => 0
  | .bool _ => 0
  | .num _ => 0
  | .str _ => 0
  | .arr es => Json.depthElems es + 1
  | .obj fs => Json.depthFields fs + 1

/-- Largest member depth of an element list. -/
def Json.depthElems : List Json → Nat
  | [] => 0
  | v :: vs => max (Json.depthV v) (Json.depthElems vs)

/-- Largest member depth of a field list. -/
def Json.depthFields : List (String × Json) → Nat
  | [] => 0
  | (_, v) :: fs => max (Json.depthV v) (Json.depthFields fs)

end

/-- String conversion of a value, with the nesting depth as fuel. -/
def jsToString (v : Json) : String := jsToStringF v.depthV v

/-- The expression a?.toString(): undefined stays undefined, null is
short-circuited to undefined, anything else converts. -/
def jsOptToString (a : Option Json) : Option String :=
  match a with
  | none => none
  | some .null => none
  | some v => some (jsToString v)

/-- Record status values. -/
inductive ReceiptStatus where
  | pending
  | synced
  | error
deriving DecidableEq

/-- The wire spelling of a status value. -/
def statusString : ReceiptStatus → String
  | .pending => "pending"
  | .synced => "synced"
  | .error => "error"

/-- A receipt record as the App stores it (ReceiptData of types.ts).  The
string-typed fields hold whatever JavaScript value actually flowed in from
the form state, so they are modelled as JSON values; the total is a
machine number; the image reference is optional. -/
structure ReceiptData where
  id : String
  date : Json
  merchant : Json
  total : JsNum
  category : Json
  paymentSource : Json
  status : ReceiptStatus
  imageUrl : Option String
deriving DecidableEq

/-- A draft under review (Partial of ReceiptData): every field optional. -/
structure Draft where
  id : Option String
  date : Option Json
  merchant : Option Json
  total : Option Json
  category : Option Json
  paymentSource : Option Json
  imageUrl : Option String
deriving DecidableEq

/-- The closed category enumeration of types.ts, in declaration order. -/
def categoryValues : List String :=
  ["Food & Dining", "Transport", "Shopping", "Utilities", "Entertainment", "Other"]

/-- The editable form state of ReceiptEdit: the total field is the text of
a controlled input, the rest hold whatever the draft supplied (strings
once the user has typed). -/
structure FormState where
  date : Json
  merchant : Json
  total : String
  category : Json
  paymentSource : Json
deriving DecidableEq

/-- The initial form state computed by ReceiptEdit from its draft. -/
def initFormData (todayString : String) (initialData : Draft) : FormState :=
  { date := jsOr initialData.date (.str todayString)
    merchant := jsOr initialData.merchant (.str "")
    total := jsOrString (jsOptToString initialData.total) ""
    category := jsOr initialData.category (.str "Other")
    paymentSource := jsOr initialData.paymentSource (.str "Credit Card") }

/-- The record handleSubmit passes to onSave: the draft id or a fresh
time-based one, the form fields, the total text through parseFloat with
NaN and 0 collapsed to 0, status pending, and the draft image. -/
def handleSubmit (initialData : Draft) (formData : FormState)
    (nowIdString : String) : ReceiptData :=
  { id := jsOrString initialData.id nowIdString
    date := formData.date
    merchant := formData.merchant
    total := (parseFloatJs formData.total).orZero
    category := formData.category
    paymentSource := formData.paymentSource
    status := .pending
    imageUrl := initialData.imageUrl }

/-! ## The App component

State, load-on-start, append, and the simulated sync.  Persistence is the
localStorage slot scansheet_data holding the JSON serialization of the
receipt list; the effect that mirrors the list into the slot runs with
every mutation, so the model folds it into each mutating operation.
-/

/-- The navigation views of types.ts. -/
inductive View where
  | scan
  | history
  | edit
  | settings
deriving DecidableEq

/-- The state held by the App component, together with the durable slot. -/
structure AppState where
  activeView : View
  receipts : List ReceiptData
  isScanning : Bool
  isProcessing : Bool
  currentEdit : Option Draft
  storage : Option String
deriving DecidableEq

/-- A machine number as JSON.stringify serializes it: NaN and the
infinities have no JSON spelling and serialize as null. -/
def jsNumToJson : JsNum → Json
  | .num q => .num q
  | .nan => .null
  | .inf => .null
  | .negInf => .null

/-- The JSON image of a stored record, fields in the order the program
builds them; an absent imageUrl is an undefined property, which
JSON.stringify omits. -/
def receiptToJson (r : ReceiptData) : Json :=
  .obj
    ([("id", .str r.id), ("date", r.date), ("merchant", r.merchant),
      ("total", jsNumToJson r.total), ("category", r.category),
      ("paymentSource", r.paymentSource), ("status", .str (statusString r.status))] ++
      (match r.imageUrl with
       | some u => [("imageUrl", .str u)]
       | none => []))

/-- The JSON image of the receipt list. -/
def receiptsToJson (rs : List ReceiptData) : Json := .arr (rs.map receiptToJson)

/-- The serialization the persistence effect writes to the slot. -/
def stringifyReceipts (rs : List ReceiptData) : String := jsonStringify (receiptsToJson rs)

/-- The load-on-start effect: an absent or empty slot leaves the initial
empty list in place; otherwise JSON.parse runs with no exception handler,
so an unparsable slot is a thrown exception (the error outcome) and a
parsed value is installed as the receipt list as-is. -/
def loadStoredReceipts (storage : Option String) : Except Unit (Option Json) :=
  match storage with
  | none => .ok none
  | some saved =>
    if saved = "" then .ok none
    else
      match jsonParse saved with
      | none => .error ()
      | some v => .ok (some v)

/-- saveReceipt: prepend the confirmed record, leave the edit view for the
history view, and (through the persistence effect) rewrite the slot with
the whole list. -/
def saveReceipt (data : ReceiptData) (st : AppState) : AppState :=
  { st with
    receipts := data :: st.receipts
    storage := some (stringifyReceipts (data :: st.receipts))
    currentEdit := none
    activeView := .history }

/-- The bulk status flip performed by the simulated sync. -/
def markAllSynced (rs : List ReceiptData) : List ReceiptData :=
  rs.map fun r => { r with status := .synced }

/-- simulateSync, run to completion: an empty list returns before any
state is touched; otherwise every status becomes synced and the slot is
rewritten by the persistence effect. -/
def simulateSync (st : AppState) : AppState :=
  if st.receipts.length = 0 then st
  else
    { st with
      receipts := markAllSynced st.receipts
      storage := some (stringifyReceipts (markAllSynced st.receipts)) }

/-- The draft handleCapture installs for review: the extracted fields
spread out, the captured image, and a fresh time-based id. -/
def draftOfCapture (extracted : ExtractedFields) (base64 : String)
    (nowIdString : String) : Draft :=
  { id := some nowIdString
    date := some extracted.date
    merchant := some extracted.merchant
    total := some extracted.total
    category := some extracted.category
    paymentSource := some extracted.paymentSource
    imageUrl := some base64 }

/-- handleCapture, run to completion against a settled extraction: on
success the draft is installed and the edit view opened; on failure an
alert is shown (the returned flag) and nothing else changes; either way
the scanning overlay is closed first and the processing overlay cleared
in the finally block. -/
def handleCapture (st : AppState) (extraction : Except Unit ExtractedFields)
    (base64 nowIdString : String) : AppState × Bool :=
  match extraction with
  | .ok ex =>
    ({ st with
       isScanning := false
       isProcessing := false
       currentEdit := some (draftOfCapture ex base64 nowIdString)
       activeView := .edit }, false)
  | .error _ =>
    ({ st with isScanning := false, isProcessing := false }, true)

/-! ## Small facts about the or-else defaults -/

/-- A defaulted read is the default or the present value itself. -/
theorem jsOr_eq_or (a : Option Json) (d : Json) : jsOr a d = d ∨ a = some (jsOr a d) := by
  match a with
  | none => exact Or.inl rfl
  | some v =>
    by_cases h : jsTruthy v
    · exact Or.inr (by simp [jsOr, h])
    · exact Or.inl (by simp [jsOr, h])

/-- An absent value reads as the default. -/
theorem jsOr_none_eq (d : Json) : jsOr none d = d := rfl

/-- The NaN-and-zero collapse never leaves NaN behind. -/
theorem JsNum.orZero_ne_nan (n : JsNum) : n.orZero ≠ .nan := by
  match n with
  | .num q =>
    by_cases h : q = 0 <;> simp [JsNum.orZero, JsNum.truthy, h]
  | .nan => simp [JsNum.orZero, JsNum.truthy]
  | .inf => simp [JsNum.orZero, JsNum.truthy]
  | .negInf => simp [JsNum.orZero, JsNum.truthy]

/-! ## Sample data used by counterexamples and witnesses -/

/-- The draft with every field absent. -/
def draftEmpty : Draft :=
  { id := none, date := none, merchant := none, total := none,
    category := none, paymentSource := none, imageUrl := none }

/-- A completed form whose total field reads "12.x". -/
def formWith12x : FormState :=
  { date := .str "2026-02-03", merchant := .str "Cafe Luna", total := "12.x",
    category := .str "Other", paymentSource := .str "Visa 1234" }

/-- A completed form whose total field reads "-5". -/
def formWithMinus5 : FormState :=
  { date := .str "2026-02-03", merchant := .str "Cafe Luna", total := "-5",
    category := .str "Other", paymentSource := .str "Cash" }

/-! ## Claim C1 -/

/-- Claim C1, counterexample.  At the instant 0 (1970-01-01T00:00Z) with
the caller one hour west of UTC (offset -60), an extraction response
missing every field is defaulted with the UTC calendar day 1970-01-01,
while the calendar day in the caller's local zone is 1969-12-31: the
default date is not the local day the claim states. -/
theorem claim_C1_counterexample :
    processReceipt 0 (.ok { text := some "\x7b\x7d" }) =
      .ok { date := .str "1970-01-01", merchant := .str "Unknown Merchant",
            total := .num 0, category := .str "Other", paymentSource := .str "Unknown" } ∧
    specLocalIsoDay 0 (-60) = "1969-12-31" ∧
    ("1970-01-01" : String) ≠ "1969-12-31" := by
  refine ⟨rfl, by decide, by decide⟩

/-- Claim C1 as amended: for every extraction response object, the output
of processReceipt has all five fields populated with either the extracted
value or the documented default - missing date becomes today's date as an
ISO calendar day in UTC (the toISOString day, which can differ from the
caller-local day), missing merchant becomes "Unknown Merchant", missing
or zero-ish total becomes the number 0, missing category becomes "Other",
missing paymentSource becomes "Unknown" - and no field of the result is
missing (the output type carries all five fields). -/
theorem claim_C1_amended : ∀ (nowMs : Int) (result : Json),
    (∀ s, s ≠ "" → jsonParse s = some result → result ≠ .null →
      processReceipt nowMs (.ok { text := some s }) =
        .ok (buildExtracted (isoUtcDay nowMs) result)) ∧
    (jsGet result "date" = none →
      (buildExtracted (isoUtcDay nowMs) result).date = .str (isoUtcDay nowMs)) ∧
    (jsGet result "merchant" = none →
      (buildExtracted (isoUtcDay nowMs) result).merchant = .str "Unknown Merchant") ∧
    (jsGet result "total" = none ∨ jsGet result "total" = some (.num 0) →
      (buildExtracted (isoUtcDay nowMs) result).total = .num 0) ∧
    (jsGet result "category" = none →
      (buildExtracted (isoUtcDay nowMs) result).category = .str "Other") ∧
    (jsGet result "paymentSource" = none →
      (buildExtracted (isoUtcDay nowMs) result).paymentSource = .str "Unknown") ∧
    ((buildExtracted (isoUtcDay nowMs) result).date = .str (isoUtcDay nowMs) ∨
      jsGet result "date" = some (buildExtracted (isoUtcDay nowMs) result).date) ∧
    ((buildExtracted (isoUtcDay nowMs) result).merchant = .str "Unknown Merchant" ∨
      jsGet result "merchant" = some (buildExtracted (isoUtcDay nowMs) result).merchant) ∧
    ((buildExtracted (isoUtcDay nowMs) result).total = .num 0 ∨
      jsGet result "total" = some (buildExtracted (isoUtcDay nowMs) result).total) ∧
    ((buildExtracted (isoUtcDay nowMs) result).category = .str "Other" ∨
      jsGet result "category" = some (buildExtracted (isoUtcDay nowMs) result).category) ∧
    ((buildExtracted (isoUtcDay nowMs) result).paymentSource = .str "Unknown" ∨
      jsGet result "paymentSource" = some (buildExtracted (isoUtcDay nowMs) result).paymentSource) := by
  intro nowMs result
  refine ⟨?_, ?_, ?_, ?_, ?_, ?_, ?_, ?_, ?_, ?_, ?_⟩
  · intro s hs hparse hnull
    unfold processReceipt
    simp only [jsOrString, if_neg hs, hparse]
  · intro h; simp [buildExtracted, defaultFields, h, jsOr]
  · intro h; simp [buildExtracted, defaultFields, h, jsOr]
  · intro h
    cases h with
    | inl h => simp [buildExtracted, defaultFields, h, jsOr]
    | inr h => simp [buildExtracted, defaultFields, h, jsOr, jsTruthy]
  · intro h; simp [buildExtracted, defaultFields, h, jsOr]
  · intro h; simp [buildExtracted, defaultFields, h, jsOr]
  · exact jsOr_eq_or _ _
  · exact jsOr_eq_or _ _
  · exact jsOr_eq_or _ _
  · exact jsOr_eq_or _ _
  · exact jsOr_eq_or _ _

/-- Claim C1 witness: the amended theorem applied to the scenario of the
specification, response merchant "Cafe Luna" and total 12.5 with the other
fields absent, at the instant 0. -/
theorem claim_C1_witness :
    processReceipt 0 (.ok { text := some "\x7b\"merchant\":\"Cafe Luna\",\"total\":12.5\x7d" }) =
      .ok (buildExtracted (isoUtcDay 0)
        (.obj [("merchant", .str "Cafe Luna"), ("total", .num (Rat.divInt 25 2))])) ∧
    (buildExtracted (isoUtcDay 0)
      (.obj [("merchant", .str "Cafe Luna"), ("total", .num (Rat.divInt 25 2))])).date =
        .str (isoUtcDay 0) := by
  have h := claim_C1_amended 0
    (.obj [("merchant", .str "Cafe Luna"), ("total", .num (Rat.divInt 25 2))])
  exact ⟨(h.1) "\x7b\"merchant\":\"Cafe Luna\",\"total\":12.5\x7d" (by decide) (by decide)
    (by decide), (h.2.1) (by decide)⟩

/-! ## Further sample data and split lemmas -/

/-- A stored record used by witnesses. -/
def sampleReceipt : ReceiptData :=
  { id := "1", date := .str "2026-02-03", merchant := .str "Cafe Luna",
    total := .num 12, category := .str "Other", paymentSource := .str "Cash",
    status := .pending, imageUrl := none }

/-- An application state holding one record. -/
def sampleState : AppState :=
  { activeView := .history, receipts := [sampleReceipt], isScanning := false,
    isProcessing := false, currentEdit := none, storage := none }

/-- A comma-free string splits into itself alone. -/
theorem splitComma_no_comma : ∀ p : List Char, ',' ∉ p → splitComma p = [p]
  | [], _ => rfl
  | c :: rest, h => by
    have hc : ¬(c = ',') := fun e => h (by simp [e])
    have ht : ',' ∉ rest := fun m => h (List.mem_cons_of_mem c m)
    simp [splitComma, hc, splitComma_no_comma rest ht]

/-- Splitting cuts at the first comma when the prefix is comma-free. -/
theorem splitComma_prefix : ∀ p rest : List Char, ',' ∉ p →
    splitComma (p ++ ',' :: rest) = p :: splitComma rest
  | [], rest, _ => by simp [splitComma]
  | c :: p, rest, h => by
    have hc : ¬(c = ',') := fun e => h (by simp [e])
    have ht : ',' ∉ p := fun m => h (List.mem_cons_of_mem c m)
    simp [splitComma, hc, splitComma_prefix p rest ht]

/-! ## Claim C2 -/

/-- Claim C2, counterexample: on unparsable slot content the load effect
is a thrown JSON.parse exception (the error outcome), not an empty
sequence - there is no exception handler around the parse. -/
theorem claim_C2_counterexample :
    loadStoredReceipts (some "corrupt \x7b") = .error () := rfl

/-- Claim C2 as amended: a load from an absent (or empty, hence falsy)
slot leaves the empty list and does not fail, and a load from a parsable
slot installs the parsed value; but a load from a nonempty unparsable slot
throws (the parse error propagates out of the effect), rather than
yielding the empty sequence. -/
theorem claim_C2_amended :
    loadStoredReceipts none = .ok none ∧
    loadStoredReceipts (some "") = .ok none ∧
    (∀ s : String, s ≠ "" → jsonParse s = none → loadStoredReceipts (some s) = .error ()) ∧
    (∀ (s : String) (v : Json), s ≠ "" → jsonParse s = some v →
      loadStoredReceipts (some s) = .ok (some v)) := by
  refine ⟨rfl, rfl, ?_, ?_⟩
  · intro s hs hp; simp [loadStoredReceipts, hs, hp]
  · intro s v hs hp; simp [loadStoredReceipts, hs, hp]

/-- Claim C2 witness: the amended theorem at the slot contents "not json"
(which throws) and "[]" (which loads the empty array). -/
theorem claim_C2_witness :
    loadStoredReceipts (some "not json") = .error () ∧
    loadStoredReceipts (some "[]") = .ok (some (.arr [])) :=
  ⟨claim_C2_amended.2.2.1 "not json" (by decide) (by decide),
   claim_C2_amended.2.2.2 "[]" (.arr []) (by decide) (by decide)⟩

/-! ## Claim C4 -/

/-- Claim C4, counterexample: confirming the form with total text "12.x"
stores the total 12, not 0 - parseFloat converts the longest numeric
prefix "12." rather than failing. -/
theorem claim_C4_counterexample :
    (handleSubmit draftEmpty formWith12x "1").total = .num 12 ∧
    (JsNum.num 12 : JsNum) ≠ .num 0 := ⟨by decide, by decide⟩

/-- Claim C4 as amended: confirming the form stores
parseFloat(total text) with NaN and 0 collapsed to the number 0, so text
with no parsable numeric prefix stores 0; the text "12.x" has the
parsable prefix "12." and stores 12. -/
theorem claim_C4_amended :
    (∀ (init : Draft) (fd : FormState) (idStr : String), parseFloatJs fd.total = .nan →
      (handleSubmit init fd idStr).total = .num 0) ∧
    parseFloatJs "12.x" = .num 12 ∧
    (∀ (init : Draft) (fd : FormState) (idStr : String),
      (handleSubmit init fd idStr).total = (parseFloatJs fd.total).orZero) := by
  refine ⟨?_, by decide, fun _ _ _ => rfl⟩
  intro init fd idStr h
  simp [handleSubmit, h, JsNum.orZero, JsNum.truthy]

/-- Claim C4 witness: the amended theorem at the unparsable total text
"abc", which stores the total 0. -/
theorem claim_C4_witness :
    (handleSubmit draftEmpty { formWith12x with total := "abc" } "1").total = .num 0 :=
  claim_C4_amended.1 draftEmpty { formWith12x with total := "abc" } "1" (by decide)

/-! ## Claim C5 -/

/-- Claim C5: markAllSynced (the sync status flip) applied to an empty
store is a no-op on the whole application state; applied to N records it
sets the status of all N records to synced, preserves their order and
count, and changes no other field of any record. -/
theorem claim_C5 : ∀ st : AppState,
    (st.receipts = [] → simulateSync st = st) ∧
    (simulateSync st).receipts = markAllSynced st.receipts ∧
    markAllSynced ([] : List ReceiptData) = [] ∧
    (markAllSynced st.receipts).length = st.receipts.length ∧
    (∀ (i : Nat) (h : i < st.receipts.length) (h2 : i < (markAllSynced st.receipts).length),
      (markAllSynced st.receipts).get ⟨i, h2⟩ =
        { st.receipts.get ⟨i, h⟩ with status := .synced }) := by
  intro st
  refine ⟨?_, ?_, rfl, by simp [markAllSynced], ?_⟩
  · intro h; simp [simulateSync, h]
  · by_cases h : st.receipts.length = 0
    · have he : st.receipts = [] := List.length_eq_zero.mp h
      simp [simulateSync, h, he, markAllSynced]
    · simp [simulateSync, h]
  · intro i h h2
    simp [markAllSynced]

/-- Claim C5 witness: the theorem at the empty store and at a one-record
store, the record's status flipped and nothing else changed. -/
theorem claim_C5_witness :
    simulateSync { sampleState with receipts := [] } = { sampleState with receipts := [] } ∧
    (markAllSynced [sampleReceipt]).get ⟨0, by decide⟩ =
      { sampleReceipt with status := .synced } := by
  refine ⟨(claim_C5 { sampleState with receipts := [] }).1 rfl, ?_⟩
  exact (claim_C5 sampleState).2.2.2.2 0 (by decide) (by decide)

/-! ## Claim C6 -/

/-- Claim C6, counterexample: the store invariant fails on the code.  A
form confirmed with total text "-5" stores the negative total -5, and a
draft whose extracted category is the nonempty string "Groceries" (outside
the closed set), left unchanged in the form, is stored with that category. -/
theorem claim_C6_counterexample :
    (handleSubmit draftEmpty formWithMinus5 "1").total = .num (-5) ∧
    (-5 : ℚ) < 0 ∧
    (handleSubmit { draftEmpty with category := some (.str "Groceries") }
        (initFormData "2026-02-03" { draftEmpty with category := some (.str "Groceries") })
        "1").category = .str "Groceries" ∧
    ("Groceries" : String) ∉ categoryValues := by
  refine ⟨by decide, by norm_num, by decide, by decide⟩

/-- Claim C6 as amended: a stored total is never NaN (and never
undefined - the field is always present), with NaN and 0 collapsing to 0;
but it need not be nonnegative or finite.  A stored category is exactly
the form's category field, which defaults to "Other" when the draft
category is missing or empty; a nonempty extracted category outside the
closed set passes through unchanged. -/
theorem claim_C6_amended :
    ∀ (init : Draft) (fd : FormState) (idStr : String) (today : String),
      (handleSubmit init fd idStr).total ≠ .nan ∧
      ((parseFloatJs fd.total = .nan ∨ parseFloatJs fd.total = .num 0) →
        (handleSubmit init fd idStr).total = .num 0) ∧
      (handleSubmit init fd idStr).category = fd.category ∧
      ((init.category = none ∨ init.category = some (.str "")) →
        (initFormData today init).category = .str "Other") := by
  intro init fd idStr today
  refine ⟨JsNum.orZero_ne_nan _, ?_, rfl, ?_⟩
  · intro h
    cases h with
    | inl h => simp [handleSubmit, h, JsNum.orZero, JsNum.truthy]
    | inr h => simp [handleSubmit, h, JsNum.orZero, JsNum.truthy]
  · intro h
    cases h with
    | inl h => simp [initFormData, h, jsOr]
    | inr h => simp [initFormData, h, jsOr, jsTruthy]

/-- Claim C6 witness: the amended theorem at an unparsable total text
(stored as 0) and at the all-absent draft (category defaulted to Other). -/
theorem claim_C6_witness :
    (handleSubmit draftEmpty { formWithMinus5 with total := "oops" } "1").total = .num 0 ∧
    (initFormData "2026-02-03" draftEmpty).category = .str "Other" :=
  ⟨(claim_C6_amended draftEmpty { formWithMinus5 with total := "oops" } "1" "2026-02-03").2.1
      (Or.inl (by decide)),
   (claim_C6_amended draftEmpty formWithMinus5 "1" "2026-02-03").2.2.2 (Or.inl rfl)⟩

/-! ## Claim C7 -/

/-- Claim C7: every transport failure and every parse failure (including
a null parse result, whose property reads throw) makes processReceipt
reject with the original failure - nothing is retried, swallowed, or
turned into a partial record - and the caller then shows the alert,
appends nothing, changes no draft, and leaves the view on the history
list. -/
theorem claim_C7 :
    (∀ (nowMs : Int) (e : Unit), processReceipt nowMs (.error e) = .error e) ∧
    (∀ (nowMs : Int) (s : String), s ≠ "" → jsonParse s = none →
      processReceipt nowMs (.ok { text := some s }) = .error ()) ∧
    (∀ nowMs : Int, processReceipt nowMs (.ok { text := some "null" }) = .error ()) ∧
    (∀ (st : AppState) (base64 idStr : String),
      handleCapture st (.error ()) base64 idStr =
        ({ st with isScanning := false, isProcessing := false }, true)) ∧
    (∀ (st : AppState) (base64 idStr : String), st.activeView = .history →
      (handleCapture st (.error ()) base64 idStr).1.activeView = .history) := by
  refine ⟨fun _ _ => rfl, ?_, fun _ => rfl, fun _ _ _ => rfl, ?_⟩
  · intro nowMs s hs hp
    unfold processReceipt
    simp [jsOrString, if_neg hs, hp]
  · intro st b i h
    simp [handleCapture, h]

/-- Claim C7 witness: the theorem at a concrete unparsable response text
and at the one-record state in the history view. -/
theorem claim_C7_witness :
    processReceipt 0 (.ok { text := some "garbage)" }) = .error () ∧
    (handleCapture sampleState (.error ()) "img" "2").1.activeView = .history :=
  ⟨claim_C7.2.1 0 "garbage)" (by decide) (by decide),
   claim_C7.2.2.2.2 sampleState "img" "2" rfl⟩

/-! ## Claim C8 -/

/-- Claim C8, counterexample: an input carrying the metadata prefix with
an empty encoded payload is transmitted whole (prefix included), because
the empty segment after the comma is falsy and the or-else falls back to
the entire input; the claim would require transmitting only the (empty)
payload. -/
theorem claim_C8_counterexample :
    sentImageData ("data:image/jpeg;base64" ++ "," ++ "") = "data:image/jpeg;base64," ∧
    ("data:image/jpeg;base64," : String) ≠ "" := ⟨by decide, by decide⟩

/-- Claim C8 as amended: for a comma-free metadata prefix and a nonempty
comma-free payload, the client strips exactly the prefix and transmits
only the payload; a prefix-free input is transmitted unchanged; an input
that is a prefix with an empty payload is transmitted whole. -/
theorem claim_C8_amended :
    (∀ p d : String, ',' ∉ p.data → ',' ∉ d.data → d ≠ "" →
      sentImageData (p ++ "," ++ d) = d) ∧
    (∀ s : String, ',' ∉ s.data → sentImageData s = s) ∧
    (∀ p : String, ',' ∉ p.data → sentImageData (p ++ ",") = p ++ ",") := by
  refine ⟨?_, ?_, ?_⟩
  · intro p d hp hd hne
    have hdata : (p ++ "," ++ d).data = p.data ++ ',' :: d.data := by
      simp [String.data_append]
    simp [sentImageData, hdata, splitComma_prefix p.data d.data hp,
      splitComma_no_comma d.data hd, jsOrString, hne]
  · intro s hs
    simp [sentImageData, splitComma_no_comma s.data hs, jsOrString]
  · intro p hp
    have hdata : (p ++ ",").data = p.data ++ ',' :: [] := by
      simp [String.data_append]
    simp [sentImageData, hdata, splitComma_prefix p.data [] hp, splitComma, jsOrString]

/-- Claim C8 witness: the amended theorem at a typical data URL and at a
raw payload. -/
theorem claim_C8_witness :
    sentImageData ("data:image/jpeg;base64" ++ "," ++ "iVBORw0KGgo=") = "iVBORw0KGgo=" ∧
    sentImageData "iVBORw0KGgo=" = "iVBORw0KGgo=" :=
  ⟨claim_C8_amended.1 "data:image/jpeg;base64" "iVBORw0KGgo=" (by decide) (by decide) (by decide),
   claim_C8_amended.2.1 "iVBORw0KGgo=" (by decide)⟩

/-! ## Claim C9 -/

/-- Claim C9, counterexample: the edit form seeded from a draft lacking
paymentSource fills in and stores the label "Credit Card", not the
sentinel "Unknown" the claim names. -/
theorem claim_C9_counterexample :
    (initFormData "2026-02-03" draftEmpty).paymentSource = .str "Credit Card" ∧
    (handleSubmit draftEmpty (initFormData "2026-02-03" draftEmpty) "1").paymentSource =
      .str "Credit Card" ∧
    Json.str "Credit Card" ≠ .str "Unknown" := ⟨by decide, by decide, by decide⟩

/-- Claim C9 as amended: the extraction client defaults an absent
paymentSource to the sentinel "Unknown", but the edit form defaults an
absent draft paymentSource to the label "Credit Card", and confirming
such a form stores "Credit Card". -/
theorem claim_C9_amended :
    (∀ (today : String) (result : Json), jsGet result "paymentSource" = none →
      (buildExtracted today result).paymentSource = .str "Unknown") ∧
    (∀ (today : String) (init : Draft), init.paymentSource = none →
      (initFormData today init).paymentSource = .str "Credit Card" ∧
      (∀ idStr : String,
        (handleSubmit init (initFormData today init) idStr).paymentSource =
          .str "Credit Card")) := by
  constructor
  · intro today result h
    simp [buildExtracted, defaultFields, h, jsOr]
  · intro today init h
    constructor
    · simp [initFormData, h, jsOr]
    · intro idStr
      simp [handleSubmit, initFormData, h, jsOr]

/-- Claim C9 witness: the amended theorem at the empty response object
and the all-absent draft. -/
theorem claim_C9_witness :
    (buildExtracted "2026-02-03" (.obj [])).paymentSource = .str "Unknown" ∧
    (handleSubmit draftEmpty (initFormData "2026-02-03" draftEmpty) "1").paymentSource =
      .str "Credit Card" :=
  ⟨claim_C9_amended.1 "2026-02-03" (.obj []) (by decide),
   (claim_C9_amended.2 "2026-02-03" draftEmpty rfl).2 "1"⟩

/-! ## Claim C10 -/

/-- Claim C10: in the extraction client a present-but-empty field is
defaulted exactly as a missing one - an empty merchant, category, date or
paymentSource string, or a zero total, produces the same output as the
field being absent - so the two are indistinguishable in the output. -/
theorem claim_C10 : ∀ (today : String) (d m t c p : Option Json),
    defaultFields today (some (.str "")) m t c p = defaultFields today none m t c p ∧
    defaultFields today d (some (.str "")) t c p = defaultFields today d none t c p ∧
    defaultFields today d m (some (.num 0)) c p = defaultFields today d m none c p ∧
    defaultFields today d m t (some (.str "")) p = defaultFields today d m t none p ∧
    defaultFields today d m t c (some (.str "")) = defaultFields today d m t c none ∧
    (∀ result : Json, buildExtracted today result =
      defaultFields today (jsGet result "date") (jsGet result "merchant")
        (jsGet result "total") (jsGet result "category") (jsGet result "paymentSource")) :=
  fun _ _ _ _ _ _ => ⟨rfl, rfl, rfl, rfl, rfl, fun _ => rfl⟩

/-! ## Round trip of the codec, stage one: decimal digit runs

The serializer prints digit runs through natDecCharsAux; the proofs relate
that fuel-indexed loop to the plain recursion decDigits and then invert
digitsFold over it.
-/

/-- Digit characters of n, most significant first, by plain recursion
(the specification the fueled loop is proved against). -/
def decDigits (n : Nat) : List Char :=
  if n = 0 then [] else decDigits (n / 10) ++ [digitChar (n % 10)]
termination_by n
decreasing_by exact Nat.div_lt_self (Nat.pos_of_ne_zero (by assumption)) (by omega)

/-- A digit character carries its digit and passes the digit test. -/
theorem digitChar_spec (k : Nat) (h : k < 10) :
    (digitChar k).toNat - 48 = k ∧ isDigitChar (digitChar k) = true := by
  interval_cases k <;> exact ⟨rfl, rfl⟩

/-- With enough fuel the loop computes decDigits in front of the
accumulator. -/
theorem natDecCharsAux_spec :
    ∀ (f n : Nat) (acc : List Char), n < f →
      natDecCharsAux f n acc = decDigits n ++ acc := by
  intro f
  induction f with
  | zero => intro n acc h; omega
  | succ f ih =>
    intro n acc h
    cases n with
    | zero => rw [decDigits]; rfl
    | succ n =>
      have hlt : (n + 1) / 10 < f :=
        Nat.lt_of_lt_of_le (Nat.div_lt_self (by omega) (by omega)) (by omega)
      have hstep : natDecCharsAux (f + 1) (n + 1) acc =
          natDecCharsAux f ((n + 1) / 10) (digitChar ((n + 1) % 10) :: acc) := rfl
      rw [hstep, ih _ _ hlt]
      conv_rhs => rw [decDigits]
      simp [Nat.succ_ne_zero]

/-- The wrapper prints decDigits (with the zero special case). -/
theorem natDecChars_eq (n : Nat) :
    natDecChars n = if n = 0 then ['0'] else decDigits n := by
  by_cases h : n = 0
  · simp [natDecChars, h]
  · simp [natDecChars, h, natDecCharsAux_spec (n + 1) n [] (by omega)]

/-- Folding from an accumulator scales it past the remaining digits. -/
theorem digitsFold_from (ds : List Char) : ∀ a : Nat,
    ds.foldl (fun acc c => acc * 10 + (c.toNat - 48)) a =
      a * 10 ^ ds.length + digitsFold ds := by
  induction ds with
  | nil => intro a; simp [digitsFold]
  | cons c ds ih =>
    intro a
    show List.foldl _ (a * 10 + (c.toNat - 48)) ds = _
    rw [ih (a * 10 + (c.toNat - 48))]
    have h0 : digitsFold (c :: ds) = (0 * 10 + (c.toNat - 48)) * 10 ^ ds.length + digitsFold ds := by
      show List.foldl _ (0 * 10 + (c.toNat - 48)) ds = _
      rw [ih (0 * 10 + (c.toNat - 48))]
    rw [h0, List.length_cons]
    ring

/-- The digit fold distributes over append with a scale. -/
theorem digitsFold_append (xs ys : List Char) :
    digitsFold (xs ++ ys) = digitsFold xs * 10 ^ ys.length + digitsFold ys := by
  simp only [digitsFold, List.foldl_append]
  rw [digitsFold_from ys (List.foldl _ 0 xs)]
  rfl

/-- Leading zero characters contribute nothing to the fold. -/
theorem digitsFold_replicate_zero (z : Nat) (xs : List Char) :
    digitsFold (List.replicate z '0' ++ xs) = digitsFold xs := by
  induction z with
  | zero => simp
  | succ z ih => simpa [List.replicate_succ, digitsFold] using ih

/-- Folding the printed digits of n recovers n. -/
theorem digitsFold_decDigits : ∀ n : Nat, digitsFold (decDigits n) = n := by
  intro n
  induction n using Nat.strongRecOn with
  | _ n ih =>
    rw [decDigits]
    by_cases h : n = 0
    · simp [h, digitsFold]
    · rw [if_neg h, digitsFold_append, ih (n / 10) (Nat.div_lt_self (by omega) (by omega))]
      have hd := digitChar_spec (n % 10) (Nat.mod_lt _ (by omega))
      simp only [digitsFold, List.foldl_cons, List.foldl_nil, List.length_cons,
        List.length_nil, Nat.zero_mul, Nat.zero_add, hd.1]
      omega

/-- Every printed digit character passes the digit test. -/
theorem decDigits_digits : ∀ n : Nat, ∀ c ∈ decDigits n, isDigitChar c = true := by
  intro n
  induction n using Nat.strongRecOn with
  | _ n ih =>
    rw [decDigits]
    by_cases h : n = 0
    · simp [h]
    · rw [if_neg h]
      intro c hc
      rcases List.mem_append.mp hc with hl | hr
      · exact ih (n / 10) (Nat.div_lt_self (by omega) (by omega)) c hl
      · rw [List.mem_singleton.mp hr]
        exact (digitChar_spec (n % 10) (Nat.mod_lt _ (by omega))).2

/-- A nonzero number prints at least one digit. -/
theorem decDigits_ne_nil (n : Nat) (h : n ≠ 0) : decDigits n ≠ [] := by
  rw [decDigits, if_neg h]
  simp

/-- Every character of the wrapper output passes the digit test. -/
theorem natDecChars_digits (n : Nat) : ∀ c ∈ natDecChars n, isDigitChar c = true := by
  rw [natDecChars_eq]
  by_cases h : n = 0
  · simp [h]; decide
  · rw [if_neg h]; exact decDigits_digits n

/-- Folding the wrapper output recovers n. -/
theorem digitsFold_natDecChars (n : Nat) : digitsFold (natDecChars n) = n := by
  rw [natDecChars_eq]
  by_cases h : n = 0
  · simp [h]; decide
  · rw [if_neg h, digitsFold_decDigits]

/-- The wrapper output is never empty. -/
theorem natDecChars_ne_nil (n : Nat) : natDecChars n ≠ [] := by
  rw [natDecChars_eq]
  by_cases h : n = 0
  · simp [h]
  · rw [if_neg h]; exact decDigits_ne_nil n h

/-- A rest list that cannot extend a digit run. -/
def notDigitStart : List Char → Bool
  | [] => true
  | c :: _ => !(isDigitChar c)

/-- takeDigits does not move on a non-digit start. -/
theorem takeDigits_stop (cs : List Char) (h : notDigitStart cs = true) :
    takeDigits cs = ([], cs) := by
  match cs with
  | [] => rfl
  | c :: t =>
    simp only [notDigitStart, Bool.not_eq_true'] at h
    simp [takeDigits, h]

/-- takeDigits consumes exactly a leading digit run. -/
theorem takeDigits_run (ds : List Char) (hds : ∀ c ∈ ds, isDigitChar c = true)
    (rest : List Char) (hrest : notDigitStart rest = true) :
    takeDigits (ds ++ rest) = (ds, rest) := by
  induction ds with
  | nil => simpa using takeDigits_stop rest hrest
  | cons c t ih =>
    have hc : isDigitChar c = true := hds c (by simp)
    have ht := ih fun x hx => hds x (by simp [hx])
    simp [takeDigits, hc, ht]

/-! ## Round trip of the codec, stage two: numerals -/

/-- Int.pow is the monoid power. -/
theorem intPow_eq (m : Int) : ∀ n : Nat, Int.pow m n = m ^ n := by
  intro n
  induction n with
  | zero => rfl
  | succ n ih => rw [pow_succ, ← ih]; rfl

/-- A rest that cannot extend a printed numeral: empty or headed by a
character that is no digit and none of point and the exponent markers.
Every delimiter the serializer emits after a number qualifies. -/
def numBoundary : List Char → Bool
  | [] => true
  | c :: _ => !(isDigitChar c || c = '.' || c = 'e' || c = 'E')

/-- A numeral boundary cannot start a digit run. -/
theorem numBoundary_notDigitStart (cs : List Char) (h : numBoundary cs = true) :
    notDigitStart cs = true := by
  match cs with
  | [] => rfl
  | c :: t =>
    simp only [numBoundary, Bool.not_eq_true', Bool.or_eq_false_iff] at h
    simp [notDigitStart, h.1.1.1]

/-- A digit character is none of the structural characters the parser
dispatches on. -/
theorem digit_not_special (c : Char) (h : isDigitChar c = true) :
    c ≠ '-' ∧ c ≠ '+' ∧ c ≠ '.' ∧ c ≠ 'e' ∧ c ≠ 'E' ∧
      c ≠ ']' ∧ c ≠ '\x7d' ∧ c ≠ ',' ∧ c ≠ 'n' ∧ c ≠ 't' ∧ c ≠ 'f' ∧
      c ≠ '"' ∧ c ≠ '[' ∧ c ≠ '\x7b' ∧ c ≠ ':' := by
  refine ⟨?_, ?_, ?_, ?_, ?_, ?_, ?_, ?_, ?_, ?_, ?_, ?_, ?_, ?_, ?_⟩
  all_goals (intro e; rw [e] at h; exact absurd h (by decide))

/-- A digit character is not whitespace. -/
theorem digit_not_ws (c : Char) (h : isDigitChar c = true) : isWsChar c = false := by
  have h1 : ¬(c = ' ') := by intro e; rw [e] at h; exact absurd h (by decide)
  have h2 : ¬(c = '\t') := by intro e; rw [e] at h; exact absurd h (by decide)
  have h3 : ¬(c = '\n') := by intro e; rw [e] at h; exact absurd h (by decide)
  have h4 : ¬(c = '\r') := by intro e; rw [e] at h; exact absurd h (by decide)
  simp [isWsChar, h1, h2, h3, h4]

/-- The fraction reader is inert when no point follows. -/
theorem parseFrac_not_dot (cs : List Char) (h : ∀ t, cs ≠ '.' :: t) :
    parseFrac cs = some ([], cs) := by
  match cs with
  | [] => rfl
  | c :: t =>
    have hc : ¬(c = '.') := fun e => h t (by rw [e])
    rw [parseFrac.eq_def]
    split
    · rename_i r heq
      cases heq
      exact absurd rfl hc
    · rfl

/-- The exponent reader is inert when no marker follows. -/
theorem parseExp_not_marker (cs : List Char) (h1 : ∀ t, cs ≠ 'e' :: t)
    (h2 : ∀ t, cs ≠ 'E' :: t) : parseExp cs = some (0, cs) := by
  match cs with
  | [] => rfl
  | c :: t =>
    have hce : ¬(c = 'e') := fun e => h1 t (by rw [e])
    have hcE : ¬(c = 'E') := fun e => h2 t (by rw [e])
    rw [parseExp.eq_def]
    split
    · rename_i r heq; cases heq; exact absurd rfl hce
    · rename_i r heq; cases heq; exact absurd rfl hcE
    · rfl

/-- A numeral boundary is inert for the fraction and exponent readers. -/
theorem numBoundary_inert (cs : List Char) (h : numBoundary cs = true) :
    parseFrac cs = some ([], cs) ∧ parseExp cs = some (0, cs) := by
  match cs with
  | [] => exact ⟨rfl, rfl⟩
  | c :: t =>
    simp only [numBoundary, Bool.not_eq_true', Bool.or_eq_false_iff,
      decide_eq_false_iff_not] at h
    refine ⟨parseFrac_not_dot _ ?_, parseExp_not_marker _ ?_ ?_⟩
    · intro u he; cases he; exact h.1.1.2 rfl
    · intro u he; cases he; exact h.1.2 rfl
    · intro u he; cases he; exact h.2 rfl

/-- The wrapper output split into head and tail, the head a digit. -/
theorem natDecChars_cons (m : Nat) :
    ∃ c t, natDecChars m = c :: t ∧ isDigitChar c = true := by
  match h : natDecChars m with
  | [] => exact absurd h (natDecChars_ne_nil m)
  | c :: t => exact ⟨c, t, rfl, natDecChars_digits m c (h ▸ List.mem_cons_self c t)⟩

/-- Padding keeps every character a digit. -/
theorem padZeros_digits (w : Nat) (ds : List Char) (h : ∀ c ∈ ds, isDigitChar c = true) :
    ∀ c ∈ padZeros w ds, isDigitChar c = true := by
  intro c hc
  rcases List.mem_append.mp hc with hl | hr
  · rw [List.eq_of_mem_replicate hl]; decide
  · exact h c hr

/-- Padding reaches the requested width. -/
theorem padZeros_length (w : Nat) (ds : List Char) : w ≤ (padZeros w ds).length := by
  simp only [padZeros, List.length_append, List.length_replicate]
  omega

/-- Padding does not change the folded value. -/
theorem digitsFold_padZeros (w : Nat) (ds : List Char) :
    digitsFold (padZeros w ds) = digitsFold ds :=
  digitsFold_replicate_zero _ _

/-- The sign is a cons in front of the unsigned spelling. -/
theorem renderDecimal_neg (m k : Nat) :
    renderDecimal true m k = '-' :: renderDecimal false m k := by
  by_cases hk : k = 0 <;> simp [renderDecimal, hk]

/-- The sign reader takes a minus. -/
theorem splitSign_minus (t : List Char) : splitSign ('-' :: t) = (true, t) := rfl

/-- The sign reader is inert on any other head. -/
theorem splitSign_other (c : Char) (t : List Char) (h : c ≠ '-') :
    splitSign (c :: t) = (false, c :: t) := by
  rw [splitSign.eq_def]
  split
  · rename_i r heq; cases heq; exact absurd rfl h
  · rfl

/-- Parsing a printed decimal with boundary rest recovers the signed
value m / 10 ^ k. -/
theorem parseNumber_render (neg : Bool) (m k : Nat) (rest : List Char)
    (hrest : numBoundary rest = true) :
    parseNumber (renderDecimal neg m k ++ rest) =
      some ((if neg then -(Rat.divInt m (Int.pow 10 k)) else Rat.divInt m (Int.pow 10 k)),
        rest) := by
  have hinert := numBoundary_inert rest hrest
  have hstop := numBoundary_notDigitStart rest hrest
  by_cases hk : k = 0
  · subst hk
    have hds := natDecChars_digits m
    obtain ⟨c0, t0, hb, hc0⟩ := natDecChars_cons m
    have htake : takeDigits (natDecChars m ++ rest) = (natDecChars m, rest) :=
      takeDigits_run _ hds _ hstop
    have hne : (natDecChars m).isEmpty = false := by rw [hb]; rfl
    cases neg with
    | true =>
      have harg : renderDecimal true m 0 ++ rest = '-' :: (natDecChars m ++ rest) := by
        rw [renderDecimal_neg]
        simp [renderDecimal]
      rw [harg]
      simp only [parseNumber, splitSign_minus, htake, hne, Bool.false_eq_true, if_false,
        hinert.1, hinert.2]
      simp [digitsFold_natDecChars, show Int.pow 10 0 = 1 from rfl]
    | false =>
      obtain ⟨hm, hp, _⟩ := digit_not_special c0 hc0
      have htake2 : takeDigits (c0 :: (t0 ++ rest)) = (c0 :: t0, rest) := by
        have h0 := htake
        rwa [hb, List.cons_append] at h0
      have harg : renderDecimal false m 0 ++ rest = c0 :: (t0 ++ rest) := by
        simp [renderDecimal, hb]
      have hfold : digitsFold (c0 :: t0) = m := by rw [← hb, digitsFold_natDecChars]
      rw [harg]
      simp only [parseNumber, splitSign_other c0 _ hm, htake2, hinert.1, hinert.2]
      simp [hfold, show Int.pow 10 0 = 1 from rfl]
  · set ds := padZeros (k + 1) (natDecChars m) with hds_def
    have hdig : ∀ c ∈ ds, isDigitChar c = true :=
      padZeros_digits _ _ (natDecChars_digits m)
    have hlen : k + 1 ≤ ds.length := padZeros_length _ _
    set i := ds.length - k with hi_def
    have hip : 1 ≤ i := by omega
    have hsplit : ds.take i ++ ds.drop i = ds := List.take_append_drop i ds
    have hlen_take : (ds.take i).length = i := by rw [List.length_take]; omega
    have hlen_drop : (ds.drop i).length = k := by rw [List.length_drop]; omega
    have hint_dig : ∀ c ∈ ds.take i, isDigitChar c = true :=
      fun c hc => hdig c (List.take_subset i ds hc)
    have hfrac_dig : ∀ c ∈ ds.drop i, isDigitChar c = true :=
      fun c hc => hdig c (List.drop_subset i ds hc)
    obtain ⟨c0, t0, hb, hc0⟩ : ∃ c t, ds.take i = c :: t ∧ isDigitChar c = true := by
      match h : ds.take i with
      | [] => rw [h] at hlen_take; simp at hlen_take; omega
      | c :: t => exact ⟨c, t, rfl, hint_dig c (h ▸ List.mem_cons_self c t)⟩
    have hbody : renderDecimal false m k ++ rest =
        ds.take i ++ ('.' :: (ds.drop i ++ rest)) := by
      simp only [renderDecimal, if_neg hk, ← hds_def, ← hi_def]
      simp
    have htake1 : takeDigits (ds.take i ++ ('.' :: (ds.drop i ++ rest))) =
        (ds.take i, '.' :: (ds.drop i ++ rest)) :=
      takeDigits_run (ds.take i) hint_dig ('.' :: (ds.drop i ++ rest)) rfl
    have htake2 : takeDigits (ds.drop i ++ rest) = (ds.drop i, rest) :=
      takeDigits_run _ hfrac_dig _ hstop
    have hfrac_ne : (ds.drop i).isEmpty = false := by
      cases h : ds.drop i with
      | nil => rw [h] at hlen_drop; simp at hlen_drop; omega
      | cons a b => rfl
    have hint_ne : (ds.take i).isEmpty = false := by rw [hb]; rfl
    have hfold : digitsFold (ds.take i ++ ds.drop i) = m := by
      rw [hsplit, hds_def, digitsFold_padZeros, digitsFold_natDecChars]
    have hexneg : ¬((0 : Int) ≤ 0 - (k : Int)) := by omega
    cases neg with
    | true =>
      have harg : renderDecimal true m k ++ rest =
          '-' :: (ds.take i ++ ('.' :: (ds.drop i ++ rest))) := by
        rw [renderDecimal_neg, List.cons_append, hbody]
      rw [harg]
      simp only [parseNumber, splitSign_minus, htake1, parseFrac, htake2, hfrac_ne,
        hint_ne, Bool.false_eq_true, if_false, hinert.2, hfold, hlen_drop]
      rw [if_neg hexneg]
      simp [Int.toNat_natCast]
    | false =>
      obtain ⟨hm, hp, _⟩ := digit_not_special c0 hc0
      have harg : renderDecimal false m k ++ rest =
          c0 :: (t0 ++ ('.' :: (ds.drop i ++ rest))) := by
        rw [hbody, hb, List.cons_append]
      have htake1' : takeDigits (c0 :: (t0 ++ ('.' :: (ds.drop i ++ rest)))) =
          (c0 :: t0, '.' :: (ds.drop i ++ rest)) := by
        have h0 := htake1
        rwa [hb, List.cons_append] at h0
      have hfold' : digitsFold ((c0 :: t0) ++ ds.drop i) = m := by
        rw [← hb, hfold]
      rw [harg]
      simp only [parseNumber, splitSign_other c0 _ hm, htake1', parseFrac, htake2,
        hfrac_ne, List.isEmpty_cons, Bool.false_eq_true, if_false, hinert.2, hfold',
        hlen_drop]
      rw [if_neg hexneg]
      simp [Int.toNat_natCast]

/-- The numeral codec round trip: parsing the printed spelling of a
decimal-fraction rational recovers it exactly. -/
theorem parseNumber_numToString (q : ℚ) (hq : decTenRep q = true) (rest : List Char)
    (hrest : numBoundary rest = true) :
    parseNumber ((numToString q).data ++ rest) = some (q, rest) := by
  by_cases h0 : q = 0
  · subst h0
    have harg : (numToString 0).data = renderDecimal false 0 0 := rfl
    rw [harg, parseNumber_render false 0 0 rest hrest]
    simp [Rat.zero_divInt]
  · have harg : (numToString q).data =
        renderDecimal (decide (q.num < 0)) (q.num.natAbs * (10 ^ (max (maxPow 2 q.den)
          (maxPow 5 q.den)) / q.den)) (max (maxPow 2 q.den) (maxPow 5 q.den)) := by
      simp only [numToString, if_neg h0]
    set k := max (maxPow 2 q.den) (maxPow 5 q.den) with hk_def
    set n := q.num.natAbs with hn_def
    set m := n * (10 ^ k / q.den) with hm_def
    rw [harg, parseNumber_render (decide (q.num < 0)) m k rest hrest]
    have hrep : 2 ^ maxPow 2 q.den * 5 ^ maxPow 5 q.den = q.den := of_decide_eq_true hq
    have hdvd : q.den ∣ 10 ^ k := by
      have h2 : (2 : Nat) ^ maxPow 2 q.den ∣ 2 ^ k := pow_dvd_pow 2 (le_max_left _ _)
      have h5 : (5 : Nat) ^ maxPow 5 q.den ∣ 5 ^ k := pow_dvd_pow 5 (le_max_right _ _)
      have h10 : (10 : Nat) ^ k = 2 ^ k * 5 ^ k := by
        rw [show (10 : Nat) = 2 * 5 from rfl, mul_pow]
      rw [h10, ← hrep]
      exact mul_dvd_mul h2 h5
    have hm_eq : m * q.den = n * 10 ^ k := by
      rw [hm_def, mul_assoc, Nat.div_mul_cancel hdvd]
    have hpow_ne : ((10 : Int) ^ k) ≠ 0 := pow_ne_zero k (by norm_num)
    have hden_ne : ((q.den : Int)) ≠ 0 := by
      exact_mod_cast q.den_nz
    have hdiv : Rat.divInt m (Int.pow 10 k) = Rat.divInt n q.den := by
      rw [intPow_eq]
      rw [Rat.divInt_eq_divInt hpow_ne hden_ne]
      exact_mod_cast hm_eq
    by_cases hneg : q.num < 0
    · have hcast : (n : Int) = -q.num := by
        rw [hn_def]
        omega
      rw [if_pos (by simpa using hneg), hdiv, hcast, Rat.neg_divInt, neg_neg,
        Rat.num_divInt_den]
    · have hcast : (n : Int) = q.num := by
        rw [hn_def]
        omega
      rw [if_neg (by simpa using hneg), hdiv, hcast, Rat.num_divInt_den]

/-! ## Round trip of the codec, stage three: strings -/

/-- The hexadecimal digit characters decode to their values. -/
theorem hexVal_hexDigitChar (d : Nat) (h : d < 16) : hexVal (hexDigitChar d) = some d := by
  interval_cases d <;> rfl

/-- Parsing one escaped character undoes the escape. -/
theorem parseStrBody_escape (c : Char) (rest : List Char) :
    parseStrBody (escapeChar c ++ rest) =
      (match parseStrBody rest with
       | some (body, r) => some (c :: body, r)
       | none => none) := by
  simp only [escapeChar]
  split
  · rfl
  · rfl
  · rfl
  · rfl
  · rfl
  · rfl
  · rfl
  · rename_i h1 h2 h3 h4 h5 h6 h7
    by_cases hlt : c.toNat < 32
    · simp only [if_pos hlt, List.cons_append, List.nil_append]
      have hdv : c.toNat / 16 < 16 := by omega
      have hmv : c.toNat % 16 < 16 := Nat.mod_lt _ (by omega)
      simp only [parseStrBody, hexVal_hexDigitChar _ hdv, hexVal_hexDigitChar _ hmv,
        show hexVal '0' = some 0 from rfl]
      have harith : ((0 * 16 + 0) * 16 + c.toNat / 16) * 16 + c.toNat % 16 = c.toNat := by
        omega
      rw [harith, Char.ofNat_toNat]
      rfl
    · simp only [if_neg hlt, List.cons_append, List.nil_append]
      rw [parseStrBody.eq_def]
      have h2' : c ≠ '\\' := h2
      have h1' : c ≠ '"' := h1
      simp [h1', h2', hlt]

/-- Parsing an escaped body stops exactly at the closing quote. -/
theorem parseStrBody_escBody (cs : List Char) (rest : List Char) :
    parseStrBody ((cs.map escapeChar).flatten ++ '"' :: rest) = some (cs, rest) := by
  induction cs with
  | nil => rfl
  | cons c cs ih =>
    rw [List.map_cons, List.flatten_cons, List.append_assoc, parseStrBody_escape, ih]

/-- skipWs is inert on a non-whitespace head. -/
theorem skipWs_not_ws (c : Char) (t : List Char) (h : isWsChar c = false) :
    skipWs (c :: t) = c :: t := by
  simp [skipWs, h]

/-- A nonempty all-digit run split into head and tail. -/
theorem digits_cons (l : List Char) (hne : l ≠ []) (hdig : ∀ c ∈ l, isDigitChar c = true) :
    ∃ c t, l = c :: t ∧ isDigitChar c = true := by
  match l, hne with
  | c :: t, _ => exact ⟨c, t, rfl, hdig c (List.mem_cons_self c t)⟩

/-- The unsigned decimal spelling starts with a digit. -/
theorem renderDecimal_false_cons (m k : Nat) :
    ∃ c t, renderDecimal false m k = c :: t ∧ isDigitChar c = true := by
  by_cases hk : k = 0
  · subst hk
    obtain ⟨c, t, hb, hc⟩ := natDecChars_cons m
    exact ⟨c, t, by simp [renderDecimal, hb], hc⟩
  · set ds := padZeros (k + 1) (natDecChars m) with hds_def
    have hlen : k + 1 ≤ ds.length := padZeros_length _ _
    have hlen_take : (ds.take (ds.length - k)).length = ds.length - k := by
      rw [List.length_take]; omega
    obtain ⟨c, t, hb, hc⟩ :=
      digits_cons (ds.take (ds.length - k))
        (by intro h; rw [h] at hlen_take; simp at hlen_take; omega)
        (fun c hc => padZeros_digits _ _ (natDecChars_digits m) c
          (List.take_subset _ ds hc))
    refine ⟨c, t ++ ('.' :: ds.drop (ds.length - k)), ?_, hc⟩
    simp only [renderDecimal, if_neg hk, ← hds_def]
    rw [hb]
    simp

/-- Every serialized value starts with a character that is neither
whitespace nor a closer nor a comma. -/
theorem stringify_head (j : Json) :
    ∃ c t, stringifyVal j = c :: t ∧ isWsChar c = false ∧ c ≠ ']' ∧ c ≠ '\x7d' := by
  cases j with
  | null => refine ⟨'n', _, rfl, ?_, ?_, ?_⟩ <;> decide
  | bool b =>
    cases b with
    | true => refine ⟨'t', _, rfl, ?_, ?_, ?_⟩ <;> decide
    | false => refine ⟨'f', _, rfl, ?_, ?_, ?_⟩ <;> decide
  | str s => refine ⟨'"', _, rfl, ?_, ?_, ?_⟩ <;> decide
  | arr es => refine ⟨'[', _, rfl, ?_, ?_, ?_⟩ <;> decide
  | obj fs => refine ⟨'\x7b', _, rfl, ?_, ?_, ?_⟩ <;> decide
  | num q =>
    by_cases h0 : q = 0
    · exact ⟨'0', [], by simp [stringifyVal, numToString, h0], by decide, by decide,
        by decide⟩
    · have harg : stringifyVal (.num q) =
          renderDecimal (decide (q.num < 0)) (q.num.natAbs * (10 ^ (max (maxPow 2 q.den)
            (maxPow 5 q.den)) / q.den)) (max (maxPow 2 q.den) (maxPow 5 q.den)) := by
        simp only [stringifyVal, numToString, if_neg h0]
      by_cases hneg : q.num < 0
      · refine ⟨'-', renderDecimal false (q.num.natAbs * (10 ^ (max (maxPow 2 q.den)
          (maxPow 5 q.den)) / q.den)) (max (maxPow 2 q.den) (maxPow 5 q.den)), ?_,
          by decide, by decide, by decide⟩
        rw [harg, show (decide (q.num < 0)) = true from decide_eq_true hneg]
        exact renderDecimal_neg _ _
      · obtain ⟨c, t, hb, hc⟩ := renderDecimal_false_cons
          (q.num.natAbs * (10 ^ (max (maxPow 2 q.den) (maxPow 5 q.den)) / q.den))
          (max (maxPow 2 q.den) (maxPow 5 q.den))
        obtain ⟨_, _, _, _, _, hbr, hbc, _⟩ := digit_not_special c hc
        refine ⟨c, t, ?_, digit_not_ws c hc, hbr, hbc⟩
        rw [harg]
        simp only [decide_eq_false hneg]
        exact hb

/-- skipWs is inert in front of any serialized value. -/
theorem skipWs_stringify (j : Json) (x : List Char) :
    skipWs (stringifyVal j ++ x) = stringifyVal j ++ x := by
  obtain ⟨c, t, hb, hws, _, _⟩ := stringify_head j
  rw [hb, List.cons_append, skipWs_not_ws c _ hws]

/-! ## Round trip of the codec, stage four: whole values -/

/-- A rest the serializer can leave after a nested value: empty, or
headed by a separator or closer. -/
def restOk : List Char → Bool
  | [] => true
  | c :: _ => c = ',' || c = ']' || c = '\x7d'

/-- A separator rest is also a numeral boundary. -/
theorem restOk_numBoundary (cs : List Char) (h : restOk cs = true) :
    numBoundary cs = true := by
  match cs with
  | [] => rfl
  | c :: t =>
    simp only [restOk, Bool.or_eq_true, decide_eq_true_eq] at h
    rcases h with (h | h) | h <;> (subst h; rfl)

/-- The element continuation followed by the closer starts with a
separator or the closer. -/
theorem elemsTail_restOk (vs : List Json) (rest : List Char) :
    restOk (stringifyElemsTail vs ++ ']' :: rest) = true := by
  cases vs with
  | nil => rfl
  | cons v vs => rfl

/-- The field continuation followed by the closer starts with a
separator or the closer. -/
theorem fieldsTail_restOk (fs : List (String × Json)) (rest : List Char) :
    restOk (stringifyFieldsTail fs ++ '\x7d' :: rest) = true := by
  cases fs with
  | nil => rfl
  | cons f fs => rfl

/-- The quoted spelling pulled apart for the parser. -/
theorem renderStr_append (s : String) (x : List Char) :
    renderStr s ++ x = '"' :: ((s.data.map escapeChar).flatten ++ '"' :: x) := by
  simp [renderStr]

/-- The printed numeral starts with a minus or a digit. -/
theorem numToString_head (q : ℚ) :
    ∃ c t, (numToString q).data = c :: t ∧ (c = '-' ∨ isDigitChar c = true) := by
  by_cases h0 : q = 0
  · exact ⟨'0', [], by simp [numToString, h0], Or.inr (by decide)⟩
  · have harg : (numToString q).data =
        renderDecimal (decide (q.num < 0)) (q.num.natAbs * (10 ^ (max (maxPow 2 q.den)
          (maxPow 5 q.den)) / q.den)) (max (maxPow 2 q.den) (maxPow 5 q.den)) := by
      simp only [numToString, if_neg h0]
    by_cases hneg : q.num < 0
    · refine ⟨'-', renderDecimal false (q.num.natAbs * (10 ^ (max (maxPow 2 q.den)
        (maxPow 5 q.den)) / q.den)) (max (maxPow 2 q.den) (maxPow 5 q.den)), ?_,
        Or.inl rfl⟩
      rw [harg, show (decide (q.num < 0)) = true from decide_eq_true hneg]
      exact renderDecimal_neg _ _
    · obtain ⟨c, t, hb, hc⟩ := renderDecimal_false_cons _ _
      refine ⟨c, t, ?_, Or.inr hc⟩
      rw [harg, show (decide (q.num < 0)) = false from decide_eq_false hneg]
      exact hb

/-- The value parser hands a minus-or-digit head to the numeral parser. -/
theorem parseVal_to_number (f : Nat) (c0 : Char) (t : List Char)
    (g1 : c0 ≠ 'n') (g2 : c0 ≠ 't') (g3 : c0 ≠ 'f')
    (g4 : c0 ≠ '"') (g5 : c0 ≠ '[') (g6 : c0 ≠ '\x7b')
    (g7 : (c0 = '-' || isDigitChar c0) = true) :
    parseVal (f + 1) (c0 :: t) =
      (match parseNumber (c0 :: t) with
       | some (p, r) => some (.num p, r)
       | none => none) := by
  simp only [parseVal]
  simp [g1, g2, g3, g4, g5, g6, g7]

mutual

/-- Parsing the serialization of any decimal-representable value, followed
by a separator rest, recovers the value exactly. -/
theorem rt_val : ∀ (j : Json) (fuel : Nat) (rest : List Char),
    jsonDecRep j = true → (stringifyVal j).length < fuel → restOk rest = true →
    parseVal fuel (stringifyVal j ++ rest) = some (j, rest)
  | .null, fuel, rest, _, hf, _ => by
    cases fuel with
    | zero => exact absurd hf (by omega)
    | succ f => simp [stringifyVal, parseVal]
  | .bool b, fuel, rest, _, hf, _ => by
    cases fuel with
    | zero => exact absurd hf (by omega)
    | succ f => cases b <;> simp [stringifyVal, parseVal]
  | .num q, fuel, rest, hd, hf, hr => by
    cases fuel with
    | zero => exact absurd hf (by omega)
    | succ f =>
      have hq : decTenRep q = true := hd
      obtain ⟨c0, t0, hb, hc0⟩ := numToString_head q
      have harg : stringifyVal (.num q) ++ rest = c0 :: (t0 ++ rest) := by
        show (numToString q).data ++ rest = c0 :: (t0 ++ rest)
        rw [hb, List.cons_append]
      have hdisp : parseVal (f + 1) (c0 :: (t0 ++ rest)) =
          (match parseNumber (c0 :: (t0 ++ rest)) with
           | some (p, r) => some (.num p, r)
           | none => none) := by
        rcases hc0 with hm | hdig
        · subst hm
          exact parseVal_to_number f '-' _ (by decide) (by decide) (by decide) (by decide)
            (by decide) (by decide) (by decide)
        · obtain ⟨hm0, hp0, hdot, he0, hE0, hrb, hrc, hcm, hn0, ht0, hf0, hq0, hlb,
            hlc, hcl⟩ := digit_not_special c0 hdig
          exact parseVal_to_number f c0 _ hn0 ht0 hf0 hq0 hlb hlc (by simp [hdig])
      rw [harg, hdisp, show c0 :: (t0 ++ rest) = (numToString q).data ++ rest by
        rw [hb, List.cons_append],
        parseNumber_numToString q hq rest (restOk_numBoundary rest hr)]
  | .str s, fuel, rest, _, hf, _ => by
    cases fuel with
    | zero => exact absurd hf (by omega)
    | succ f =>
      have harg : stringifyVal (.str s) ++ rest =
          '"' :: ((s.data.map escapeChar).flatten ++ '"' :: rest) := by
        show renderStr s ++ rest = _
        exact renderStr_append s rest
      rw [harg]
      have hstep : parseVal (f + 1) ('"' :: ((s.data.map escapeChar).flatten ++ '"' :: rest)) =
          (match parseStrBody ((s.data.map escapeChar).flatten ++ '"' :: rest) with
           | some (body, r2) => some (.str ⟨body⟩, r2)
           | none => none) := rfl
      rw [hstep, parseStrBody_escBody]
  | .arr [], fuel, rest, _, hf, _ => by
    cases fuel with
    | zero => exact absurd hf (by omega)
    | succ f =>
      have harg : stringifyVal (.arr []) ++ rest = '[' :: (']' :: rest) := rfl
      rw [harg]
      have hstep : parseVal (f + 1) ('[' :: (']' :: rest)) =
          (match skipWs (']' :: rest) with
           | ']' :: r2 => some (.arr [], r2)
           | r1 =>
             match parseVal f r1 with
             | some (v, r2) =>
               (match parseArrTail f r2 with
                | some (vs, r3) => some (.arr (v :: vs), r3)
                | none => none)
             | none => none) := rfl
      rw [hstep, skipWs_not_ws ']' rest (by decide)]
      rfl
  | .arr (v :: vs), fuel, rest, hd, hf, hr => by
    cases fuel with
    | zero => exact absurd hf (by omega)
    | succ f =>
      have hdv : jsonDecRep v = true ∧ jsonDecRepList vs = true := by
        have h0 : jsonDecRepList (v :: vs) = true := hd
        rw [jsonDecRepList] at h0
        exact ⟨(Bool.and_eq_true _ _ |>.mp h0).1, (Bool.and_eq_true _ _ |>.mp h0).2⟩
      have hlens : (stringifyVal v).length < f ∧
          (stringifyElemsTail vs).length + 1 < f := by
        simp only [stringifyVal, stringifyElems, List.length_cons, List.length_append,
          List.length_nil] at hf
        omega
      have harg : stringifyVal (.arr (v :: vs)) ++ rest =
          '[' :: (stringifyVal v ++ (stringifyElemsTail vs ++ ']' :: rest)) := by
        simp [stringifyVal, stringifyElems]
      rw [harg]
      have hstep : parseVal (f + 1)
          ('[' :: (stringifyVal v ++ (stringifyElemsTail vs ++ ']' :: rest))) =
          (match skipWs (stringifyVal v ++ (stringifyElemsTail vs ++ ']' :: rest)) with
           | ']' :: r2 => some (.arr [], r2)
           | r1 =>
             match parseVal f r1 with
             | some (w, r2) =>
               (match parseArrTail f r2 with
                | some (ws, r3) => some (.arr (w :: ws), r3)
                | none => none)
             | none => none) := rfl
      rw [hstep, skipWs_stringify v _]
      obtain ⟨c, t, hren, hws, hbr, hbc⟩ := stringify_head v
      have hv := rt_val v f (stringifyElemsTail vs ++ ']' :: rest) hdv.1 hlens.1
        (elemsTail_restOk vs rest)
      have htail := rt_arrTail vs f rest hdv.2 hlens.2 hr
      rw [hren, List.cons_append]
      have hv' : parseVal f (c :: (t ++ (stringifyElemsTail vs ++ ']' :: rest))) =
          some (v, stringifyElemsTail vs ++ ']' :: rest) := by
        rw [← List.cons_append, ← hren]
        exact hv
      split
      · rename_i r2 heq
        injection heq with h1 h2
        exact absurd h1 hbr
      · simp only [hv', htail]
  | .obj [], fuel, rest, _, hf, _ => by
    cases fuel with
    | zero => exact absurd hf (by omega)
    | succ f =>
      have harg : stringifyVal (.obj []) ++ rest = '\x7b' :: ('\x7d' :: rest) := rfl
      rw [harg]
      have hstep : parseVal (f + 1) ('\x7b' :: ('\x7d' :: rest)) =
          (match skipWs ('\x7d' :: rest) with
           | '\x7d' :: r2 => some (.obj [], r2)
           | '"' :: r2 =>
             (match parseStrBody r2 with
              | some (key, r3) =>
                (match skipWs r3 with
                 | ':' :: r4 =>
                   (match parseVal f (skipWs r4) with
                    | some (w, r5) =>
                      (match parseObjTail f r5 with
                       | some (gs, r6) => some (.obj ((⟨key⟩, w) :: gs), r6)
                       | none => none)
                    | none => none)
                 | _ => none)
              | none => none)
           | _ => none) := rfl
      rw [hstep, skipWs_not_ws '\x7d' rest (by decide)]
      rfl
  | .obj ((k, v) :: fs), fuel, rest, hd, hf, hr => by
    cases fuel with
    | zero => exact absurd hf (by omega)
    | succ f =>
      have hdv : jsonDecRep v = true ∧ jsonDecRepFields fs = true := by
        have h0 : jsonDecRepFields ((k, v) :: fs) = true := hd
        rw [jsonDecRepFields] at h0
        exact ⟨(Bool.and_eq_true _ _ |>.mp h0).1, (Bool.and_eq_true _ _ |>.mp h0).2⟩
      have hlens : (stringifyVal v).length < f ∧
          (stringifyFieldsTail fs).length + 1 < f := by
        simp only [stringifyVal, stringifyFields, List.length_cons, List.length_append,
          List.length_nil] at hf
        omega
      have harg : stringifyVal (.obj ((k, v) :: fs)) ++ rest =
          '\x7b' :: ('"' :: ((k.data.map escapeChar).flatten ++ '"' ::
            (':' :: (stringifyVal v ++ (stringifyFieldsTail fs ++ '\x7d' :: rest))))) := by
        show '\x7b' :: (stringifyFields ((k, v) :: fs) ++ ['\x7d']) ++ rest = _
        simp only [stringifyFields, renderStr]
        simp
      rw [harg]
      have hstep : parseVal (f + 1)
          ('\x7b' :: ('"' :: ((k.data.map escapeChar).flatten ++ '"' ::
            (':' :: (stringifyVal v ++ (stringifyFieldsTail fs ++ '\x7d' :: rest)))))) =
          (match parseStrBody ((k.data.map escapeChar).flatten ++ '"' ::
            (':' :: (stringifyVal v ++ (stringifyFieldsTail fs ++ '\x7d' :: rest)))) with
           | some (key, r3) =>
             (match skipWs r3 with
              | ':' :: r4 =>
                (match parseVal f (skipWs r4) with
                 | some (w, r5) =>
                   (match parseObjTail f r5 with
                    | some (gs, r6) => some (.obj ((⟨key⟩, w) :: gs), r6)
                    | none => none)
                 | none => none)
              | _ => none)
           | none => none) := rfl
      rw [hstep, parseStrBody_escBody]
      have hv := rt_val v f (stringifyFieldsTail fs ++ '\x7d' :: rest) hdv.1 hlens.1
        (fieldsTail_restOk fs rest)
      have htail := rt_objTail fs f rest hdv.2 hlens.2 hr
      have hsk : skipWs (':' :: (stringifyVal v ++ (stringifyFieldsTail fs ++ '\x7d' :: rest))) =
          ':' :: (stringifyVal v ++ (stringifyFieldsTail fs ++ '\x7d' :: rest)) :=
        skipWs_not_ws ':' _ (by decide)
      simp only [hsk, skipWs_stringify v _, hv, htail]

/-- Parsing the serialized continuation of an array recovers the
remaining elements. -/
theorem rt_arrTail : ∀ (vs : List Json) (fuel : Nat) (rest : List Char),
    jsonDecRepList vs = true → (stringifyElemsTail vs).length + 1 < fuel →
    restOk rest = true →
    parseArrTail fuel (stringifyElemsTail vs ++ ']' :: rest) = some (vs, rest)
  | [], fuel, rest, _, hf, _ => by
    cases fuel with
    | zero => exact absurd hf (by omega)
    | succ f =>
      have hstep : parseArrTail (f + 1) (stringifyElemsTail [] ++ ']' :: rest) =
          parseArrTail (f + 1) (']' :: rest) := rfl
      rw [hstep]
      have hstep2 : parseArrTail (f + 1) (']' :: rest) =
          (match skipWs (']' :: rest) with
           | ']' :: r => some ([], r)
           | ',' :: r =>
             (match parseVal f (skipWs r) with
              | some (w, r2) =>
                (match parseArrTail f r2 with
                 | some (ws, r3) => some (w :: ws, r3)
                 | none => none)
              | none => none)
           | _ => none) := rfl
      rw [hstep2, skipWs_not_ws ']' rest (by decide)]
      rfl
  | v :: vs, fuel, rest, hd, hf, hr => by
    cases fuel with
    | zero => exact absurd hf (by omega)
    | succ f =>
      have hdv : jsonDecRep v = true ∧ jsonDecRepList vs = true := by
        rw [jsonDecRepList] at hd
        exact ⟨(Bool.and_eq_true _ _ |>.mp hd).1, (Bool.and_eq_true _ _ |>.mp hd).2⟩
      have hlens : (stringifyVal v).length < f ∧
          (stringifyElemsTail vs).length + 1 < f := by
        simp only [stringifyElemsTail, List.length_cons, List.length_append] at hf
        omega
      have harg : stringifyElemsTail (v :: vs) ++ ']' :: rest =
          ',' :: (stringifyVal v ++ (stringifyElemsTail vs ++ ']' :: rest)) := by
        simp [stringifyElemsTail]
      rw [harg]
      have hstep : parseArrTail (f + 1)
          (',' :: (stringifyVal v ++ (stringifyElemsTail vs ++ ']' :: rest))) =
          (match parseVal f (skipWs (stringifyVal v ++
              (stringifyElemsTail vs ++ ']' :: rest))) with
           | some (w, r2) =>
             (match parseArrTail f r2 with
              | some (ws, r3) => some (w :: ws, r3)
              | none => none)
           | none => none) := by
        have hsk : skipWs (',' :: (stringifyVal v ++ (stringifyElemsTail vs ++ ']' :: rest))) =
            ',' :: (stringifyVal v ++ (stringifyElemsTail vs ++ ']' :: rest)) :=
          skipWs_not_ws ',' _ (by decide)
        rw [parseArrTail, hsk]
        rfl
      rw [hstep, skipWs_stringify v _]
      simp only [rt_val v f (stringifyElemsTail vs ++ ']' :: rest) hdv.1 hlens.1
          (elemsTail_restOk vs rest),
        rt_arrTail vs f rest hdv.2 hlens.2 hr]

/-- Parsing the serialized continuation of an object recovers the
remaining fields. -/
theorem rt_objTail : ∀ (fs : List (String × Json)) (fuel : Nat) (rest : List Char),
    jsonDecRepFields fs = true → (stringifyFieldsTail fs).length + 1 < fuel →
    restOk rest = true →
    parseObjTail fuel (stringifyFieldsTail fs ++ '\x7d' :: rest) = some (fs, rest)
  | [], fuel, rest, _, hf, _ => by
    cases fuel with
    | zero => exact absurd hf (by omega)
    | succ f =>
      have hstep : parseObjTail (f + 1) (stringifyFieldsTail [] ++ '\x7d' :: rest) =
          parseObjTail (f + 1) ('\x7d' :: rest) := rfl
      rw [hstep]
      have hstep2 : parseObjTail (f + 1) ('\x7d' :: rest) =
          (match skipWs ('\x7d' :: rest) with
           | '\x7d' :: r => some ([], r)
           | ',' :: r => none
           | _ => none) := by
        rw [parseObjTail, skipWs_not_ws '\x7d' rest (by decide)]
        rfl
      rw [hstep2, skipWs_not_ws '\x7d' rest (by decide)]
      rfl
  | (k, v) :: fs, fuel, rest, hd, hf, hr => by
    cases fuel with
    | zero => exact absurd hf (by omega)
    | succ f =>
      have hdv : jsonDecRep v = true ∧ jsonDecRepFields fs = true := by
        rw [jsonDecRepFields] at hd
        exact ⟨(Bool.and_eq_true _ _ |>.mp hd).1, (Bool.and_eq_true _ _ |>.mp hd).2⟩
      have hlens : (stringifyVal v).length < f ∧
          (stringifyFieldsTail fs).length + 1 < f := by
        simp only [stringifyFieldsTail, List.length_cons, List.length_append] at hf
        omega
      have harg : stringifyFieldsTail ((k, v) :: fs) ++ '\x7d' :: rest =
          ',' :: ('"' :: ((k.data.map escapeChar).flatten ++ '"' ::
            (':' :: (stringifyVal v ++ (stringifyFieldsTail fs ++ '\x7d' :: rest))))) := by
        simp only [stringifyFieldsTail, renderStr]
        simp
      rw [harg]
      have hstep : parseObjTail (f + 1)
          (',' :: ('"' :: ((k.data.map escapeChar).flatten ++ '"' ::
            (':' :: (stringifyVal v ++ (stringifyFieldsTail fs ++ '\x7d' :: rest)))))) =
          (match parseStrBody ((k.data.map escapeChar).flatten ++ '"' ::
            (':' :: (stringifyVal v ++ (stringifyFieldsTail fs ++ '\x7d' :: rest)))) with
           | some (key, r3) =>
             (match skipWs r3 with
              | ':' :: r4 =>
                (match parseVal f (skipWs r4) with
                 | some (w, r5) =>
                   (match parseObjTail f r5 with
                    | some (gs, r6) => some ((⟨key⟩, w) :: gs, r6)
                    | none => none)
                 | none => none)
              | _ => none)
           | none => none) := rfl
      rw [hstep, parseStrBody_escBody]
      have hsk : skipWs (':' :: (stringifyVal v ++ (stringifyFieldsTail fs ++ '\x7d' :: rest))) =
          ':' :: (stringifyVal v ++ (stringifyFieldsTail fs ++ '\x7d' :: rest)) :=
        skipWs_not_ws ':' _ (by decide)
      simp only [hsk, skipWs_stringify v _,
        rt_val v f (stringifyFieldsTail fs ++ '\x7d' :: rest) hdv.1 hlens.1
          (fieldsTail_restOk fs rest),
        rt_objTail fs f rest hdv.2 hlens.2 hr]

end

/-! ## Round trip of the codec, stage five: the whole codec, and the
persisted receipt list -/

/-- The parser inverts the serializer on every value whose numerals are
decimal fractions -- which is every value the program ever serializes,
as machine numbers have finite binary (hence decimal) expansions. -/
theorem jsonParse_stringify (j : Json) (h : jsonDecRep j = true) :
    jsonParse (jsonStringify j) = some j := by
  have hsw : skipWs (stringifyVal j) = stringifyVal j := by
    have h0 := skipWs_stringify j []
    rwa [List.append_nil] at h0
  have hv : parseVal ((stringifyVal j).length + 1) (stringifyVal j) = some (j, []) := by
    have h0 := rt_val j ((stringifyVal j).length + 1) [] h (Nat.lt_succ_self _) rfl
    rwa [List.append_nil] at h0
  show (match parseVal ((stringifyVal j).length + 1) (skipWs (stringifyVal j)) with
        | some (v, rest) => if skipWs rest = [] then some v else none
        | none => none) = some j
  rw [hsw, hv]
  rfl

/-- A stored record whose JSON image has only decimal-fraction numerals:
every field value representable, and the total a machine number whose
exact value has a finite decimal expansion (or a non-finite number, which
serializes as null). -/
def wellTypedReceipt (r : ReceiptData) : Bool :=
  jsonDecRep r.date && jsonDecRep r.merchant && jsonDecRep r.category &&
  jsonDecRep r.paymentSource && jsonDecRep (jsNumToJson r.total)

/-- The JSON image of a well-typed record has only decimal-fraction
numerals. -/
theorem wellTyped_decRep (r : ReceiptData) (h : wellTypedReceipt r = true) :
    jsonDecRep (receiptToJson r) = true := by
  simp only [wellTypedReceipt, Bool.and_eq_true] at h
  obtain ⟨⟨⟨⟨h1, h2⟩, h3⟩, h4⟩, h5⟩ := h
  cases him : r.imageUrl with
  | none =>
    simp [receiptToJson, jsonDecRep, jsonDecRepFields, him, h1, h2, h3, h4, h5]
  | some u =>
    simp [receiptToJson, jsonDecRep, jsonDecRepFields, him, h1, h2, h3, h4, h5]

/-- The JSON image of a two-record store has only decimal-fraction
numerals when both records are well typed. -/
theorem receipts_decRep (r1 r2 : ReceiptData)
    (h1 : wellTypedReceipt r1 = true) (h2 : wellTypedReceipt r2 = true) :
    jsonDecRep (receiptsToJson [r2, r1]) = true := by
  show (jsonDecRep (receiptToJson r2) && (jsonDecRep (receiptToJson r1) && true)) = true
  rw [wellTyped_decRep r1 h1, wellTyped_decRep r2 h2]
  rfl

/-- The persisted serialization is never the empty string (it always
starts with the array opener), so the falsy-empty guard of the load never
hides a persisted store. -/
theorem stringifyReceipts_ne_empty (rs : List ReceiptData) :
    stringifyReceipts rs ≠ "" := by
  obtain ⟨c, t, hren, _, _, _⟩ := stringify_head (receiptsToJson rs)
  intro h
  have hd : stringifyVal (receiptsToJson rs) = [] := congrArg String.data h
  rw [hren] at hd
  exact List.cons_ne_nil c t hd

/-- The application state at a fresh process start: history view, no
records, no stored slot yet. -/
def initialAppState : AppState :=
  { activeView := .history, receipts := [], isScanning := false,
    isProcessing := false, currentEdit := none, storage := none }

/-- A second concrete record, exercising string escapes, a fractional
total and a stored image reference. -/
def sampleReceipt2 : ReceiptData :=
  { id := "2", date := .str "2026-02-04", merchant := .str "Joe\"s\nDiner",
    total := .num (Rat.divInt 25 2), category := .str "Food",
    paymentSource := .str "Credit Card", status := .pending,
    imageUrl := some "data:image/jpeg;base64,AAAA" }

/-- C3: saveReceipt prepends -- for every prior state, after it the first
element of the store is the saved record and the rest is the prior
sequence unchanged -- and it immediately persists the full sequence to
the slot; and on a fresh process (empty prior store), the startup load
performed after saving r1 and then r2 yields exactly the encoding of
[r2, r1], in that order. -/
theorem claim_C3 (st st0 : AppState) (r r1 r2 : ReceiptData)
    (h1 : wellTypedReceipt r1 = true) (h2 : wellTypedReceipt r2 = true)
    (h0 : st0.receipts = []) :
    (saveReceipt r st).receipts = r :: st.receipts ∧
    (saveReceipt r st).storage =
      some (stringifyReceipts ((saveReceipt r st).receipts)) ∧
    loadStoredReceipts (saveReceipt r2 (saveReceipt r1 st0)).storage =
      .ok (some (receiptsToJson [r2, r1])) := by
  refine ⟨rfl, rfl, ?_⟩
  have hs : (saveReceipt r2 (saveReceipt r1 st0)).storage =
      some (stringifyReceipts [r2, r1]) := by
    simp [saveReceipt, h0]
  rw [hs]
  show (if stringifyReceipts [r2, r1] = "" then Except.ok none
        else match jsonParse (stringifyReceipts [r2, r1]) with
             | none => Except.error ()
             | some v => Except.ok (some v)) =
    Except.ok (some (receiptsToJson [r2, r1]))
  rw [if_neg (stringifyReceipts_ne_empty [r2, r1]),
    show jsonParse (stringifyReceipts [r2, r1]) = some (receiptsToJson [r2, r1]) from
      jsonParse_stringify (receiptsToJson [r2, r1]) (receipts_decRep r1 r2 h1 h2)]

/-- C3 exercised with the prepend onto a state already holding a record,
and the fresh-process load after two concrete saves. -/
theorem claim_C3_witness :
    (saveReceipt sampleReceipt2 sampleState).receipts
        = sampleReceipt2 :: sampleState.receipts ∧
    (saveReceipt sampleReceipt2 sampleState).storage =
      some (stringifyReceipts ((saveReceipt sampleReceipt2 sampleState).receipts)) ∧
    loadStoredReceipts
        (saveReceipt sampleReceipt2 (saveReceipt sampleReceipt initialAppState)).storage =
      .ok (some (receiptsToJson [sampleReceipt2, sampleReceipt])) :=
  claim_C3 sampleState initialAppState sampleReceipt2 sampleReceipt sampleReceipt2
    (by decide) (by decide) rfl
